import Mathlib

/-!
Shallow embedding of the dual-memory rule store of the ECHO fact-check
repository — `src/schemas/playbook.py` (Rule / Playbook / DeltaUpdate and
their pydantic field validators), `src/utils/playbook_manager.py`
(PlaybookManager: apply_delta_update, _save_memory, the read views),
`src/utils/playbook_validator.py` (PlaybookValidator), `src/agents/curator.py`
(the verdict-based memory classification) and `src/tools/playbook_tool.py`
(search_rule_by_id) — together with proofs settling the frozen claims about
this code.

Modelling conventions: Python strings are Lean `String`s, manipulated through
character lists; Python floats are `ℚ` (the non-finite literals `nan`/`inf`
never arise in this data and are outside the model); datetimes are abstract
`Nat` ticks supplied by the caller; on-disk JSON files are the parsed values
they hold.  Exceptions escaping a function are explicit result constructors.
-/

/- ### Python string primitives over character lists -/

/-- Decimal digit character `chr(48 + d)`, for `d ≤ 9`. -/
def digitCh (d : Nat) : Char := Char.ofNat (48 + d)

/-- Numeric value of a decimal digit character; `none` on non-digits. -/
def digitVal (c : Char) : Option Nat :=
  if 48 ≤ c.toNat ∧ c.toNat ≤ 57 then some (c.toNat - 48) else none

/-- Decimal rendering of a natural number, most significant digit first:
reference version by well-founded recursion (used in proofs; the executable
fuelled version is `natToChars`). -/
def natToCharsRec (n : Nat) : List Char :=
  if h : n < 10 then [digitCh n]
  else natToCharsRec (n / 10) ++ [digitCh (n % 10)]
decreasing_by exact Nat.div_lt_self (by omega) (by omega)

/-- Fuelled decimal rendering (kernel-reducible). -/
def natToCharsAux : Nat → Nat → List Char → List Char
  | 0, _, acc => acc
  | fuel + 1, n, acc =>
    if n < 10 then digitCh n :: acc
    else natToCharsAux fuel (n / 10) (digitCh (n % 10) :: acc)

/-- Decimal rendering of a natural number (Python `str` on a non-negative
integer). -/
def natToChars (n : Nat) : List Char := natToCharsAux (n + 1) n []

/-- Python `str` on an integer. -/
def intToChars (n : Int) : List Char :=
  if n < 0 then '-' :: natToChars n.natAbs else natToChars n.toNat

/-- Digit accumulator for decimal parsing. -/
def parseDigitsAux : List Char → Nat → Option Nat
  | [], acc => some acc
  | c :: cs, acc =>
    match digitVal c with
    | some d => parseDigitsAux cs (acc * 10 + d)
    | none => none

/-- Parse a non-empty string of decimal digits. -/
def parseDigits (cs : List Char) : Option Nat :=
  match cs with
  | [] => none
  | _ :: _ => parseDigitsAux cs 0

/-- Python `int(s)`: optional sign followed by decimal digits; `none` models
the ValueError.  (Surrounding whitespace and `_` digit grouping, which never
occur in the strings this repository feeds to `int`, are not modelled.) -/
def pyInt (cs : List Char) : Option Int :=
  match cs with
  | [] => none
  | c :: rest =>
    if c = '-' then (parseDigits rest).map (fun n => -(n : Int))
    else if c = '+' then (parseDigits rest).map (fun n => (n : Int))
    else (parseDigits (c :: rest)).map (fun n => (n : Int))

/-- Python `s.split(sep)` for a one-character separator. -/
def pySplit (sep : Char) : List Char → List (List Char)
  | [] => [[]]
  | c :: cs =>
    if c = sep then [] :: pySplit sep cs
    else
      match pySplit sep cs with
      | [] => [[c]]
      | p :: ps => (c :: p) :: ps

/-- Python `s.replace(ch, '')`. -/
def pyRemoveChar (ch : Char) (cs : List Char) : List Char :=
  cs.filter (fun c => c ≠ ch)

/-- Python substring containment `pat in s`. -/
def listContainsSub (pat : List Char) : List Char → Bool
  | [] => pat.isEmpty
  | c :: cs => pat.isPrefixOf (c :: cs) || listContainsSub pat cs

/-- Python `float(s)` on a plain decimal literal `[sign] digits [. digits]`
(exponent forms and non-finite literals are not modelled; they never arise
in this repository's data). -/
def pyFloatPos (cs : List Char) : Option ℚ :=
  match pySplit '.' cs with
  | [ip] => (parseDigits ip).map (fun n => (n : ℚ))
  | [ip, fp] =>
    if ip = [] ∧ fp = [] then none
    else
      match parseDigitsAux ip 0, parseDigitsAux fp 0 with
      | some i, some f => some ((i : ℚ) + (f : ℚ) / (10 : ℚ) ^ fp.length)
      | _, _ => none
  | _ => none

/-- Python `float(s)` with optional sign. -/
def pyFloat (cs : List Char) : Option ℚ :=
  match cs with
  | [] => none
  | c :: rest =>
    if c = '-' then (pyFloatPos rest).map (fun q => -q)
    else if c = '+' then pyFloatPos rest
    else pyFloatPos (c :: rest)

/- ### Version strings (playbook_manager.apply_delta_update, lines 150-153) -/

/-- The f-string `f"v{major}.{m}"`. -/
def mkVersionString (major : List Char) (m : Int) : String :=
  ('v' :: major ++ '.' :: intToChars m).asString

/-- Python 2-tuple unpacking `a, b = l`; `none` models the ValueError when
the list does not have exactly two elements. -/
def splitTwo (l : List (List Char)) : Option (List Char × List Char) :=
  match l with
  | [a, b] => some (a, b)
  | _ => none

/-- `major, minor = old_version.replace('v', '').split('.')` followed by
`f"v{major}.{int(minor) + 1}"`; `none` models the uncaught
ValueError (from unpacking or `int`). -/
def bumpVersion (v : String) : Option String :=
  (splitTwo (pySplit '.' (pyRemoveChar 'v' v.toList))).bind
    (fun p => (pyInt p.2).map (fun n => mkVersionString p.1 (n + 1)))

/-- Parsed view (major component, minor integer) of a version string, by the
same pipeline `bumpVersion` applies. -/
def parseVersion (v : String) : Option (List Char × Int) :=
  (splitTwo (pySplit '.' (pyRemoveChar 'v' v.toList))).bind
    (fun p => (pyInt p.2).map (fun n => (p.1, n)))

/-- Order on version strings: equal, or same major component and `≤` minors. -/
def versionLe (a b : String) : Prop :=
  a = b ∨ ∃ major m n, parseVersion a = some (major, m) ∧
    parseVersion b = some (major, n) ∧ m ≤ n

/-- Canonical `vMAJOR.MINOR` version string. -/
def canonVersion (M N : Nat) : String :=
  ('v' :: natToChars M ++ '.' :: natToChars N).asString

/- ### Data model (src/schemas/playbook.py) -/

/-- schemas/playbook.py `Rule` (after pydantic validation): floats as `ℚ`,
datetimes as `Nat` ticks. -/
structure Rule where
  rule_id : String
  type : String
  condition : String
  action : String
  confidence : ℚ
  evidence_count : Int
  created_from : Option String
  created_at : Nat
  parent_rule : Option String
  description : String
  active : Bool
  memory_type : Option String
deriving DecidableEq

/-- schemas/playbook.py `Playbook`. -/
structure Playbook where
  version : String
  rules : List Rule
  last_updated : Nat
  total_cases_processed : Int
deriving DecidableEq

/-- Playbook.get_active_rules. -/
def Playbook.get_active_rules (p : Playbook) : List Rule :=
  p.rules.filter (fun r => r.active)

/-- Playbook.add_rule: append and refresh `last_updated` with the current
time `now`. -/
def Playbook.add_rule (p : Playbook) (r : Rule) (now : Nat) : Playbook :=
  { p with rules := p.rules ++ [r], last_updated := now }

/-- The five DeltaUpdate action literals. -/
inductive DeltaAction where
  | add_rule | update_rule | deprecate_rule | refine_rule | no_action
deriving DecidableEq

/-- A JSON-representable value assignable to a Rule field through
`setattr` in `update_rule` (update_fields map values). -/
inductive FieldVal where
  | fStr : String → FieldVal
  | fQ : ℚ → FieldVal
  | fInt : Int → FieldVal
  | fBool : Bool → FieldVal
  | fOptStr : Option String → FieldVal
  | fNat : Nat → FieldVal
deriving DecidableEq

/-- schemas/playbook.py `DeltaUpdate`. -/
structure DeltaUpdate where
  action : DeltaAction
  target_rule_id : Option String := none
  new_rule : Option Rule := none
  update_fields : Option (List (String × FieldVal)) := none
  reason : String
  target_memory : Option String := some "detection"
deriving DecidableEq

/-- `setattr(rule, key, value)` for the known Rule fields; an unknown key or a
type-mismatched value leaves the record unchanged (no claim exercises that
corner). -/
def setattrRule (r : Rule) (kv : String × FieldVal) : Rule :=
  match kv with
  | ("rule_id", .fStr s) => { r with rule_id := s }
  | ("type", .fStr s) => { r with type := s }
  | ("condition", .fStr s) => { r with condition := s }
  | ("action", .fStr s) => { r with action := s }
  | ("description", .fStr s) => { r with description := s }
  | ("confidence", .fQ q) => { r with confidence := q }
  | ("evidence_count", .fInt n) => { r with evidence_count := n }
  | ("created_from", .fOptStr s) => { r with created_from := s }
  | ("parent_rule", .fOptStr s) => { r with parent_rule := s }
  | ("active", .fBool b) => { r with active := b }
  | ("memory_type", .fOptStr s) => { r with memory_type := s }
  | ("created_at", .fNat t) => { r with created_at := t }
  | _ => r

/- ### Manager state (src/utils/playbook_manager.py) -/

/-- One snapshot in the history directory: the backup file's name components
`{memory_type}_{name_version}_{timestamp}.json` and the copied content. -/
structure HistoryEntry where
  memory_type : String
  name_version : String
  timestamp : Nat
  content : Playbook
deriving DecidableEq

/-- The manager's on-disk state: the two live partition files and the history
directory (as the list of snapshots, in creation order).  Both live files
exist from `__init__` on (`_initialize_playbook` creates them), so
`target_file.exists()` in `_save_memory` is always true here. -/
structure ManagerState where
  detection_file : Playbook
  trust_file : Playbook
  history : List HistoryEntry
deriving DecidableEq

/-- Exceptions escaping the modelled Python code. -/
inductive PyError where
  | attributeError | valueError | typeError | validationError
deriving DecidableEq

/-- Result of apply_delta_update: normal return, or an exception escaping
with the files as they are at raise time. -/
inductive DeltaResult where
  | ok : ManagerState → Playbook → DeltaResult
  | exn : PyError → ManagerState → DeltaResult
deriving DecidableEq

/-- `memory_type = delta.target_memory or "detection"` (Python `or`: `None`
and the empty string are falsy). -/
def memoryTypeOf (d : DeltaUpdate) : String :=
  match d.target_memory with
  | none => "detection"
  | some s => if s = "" then "detection" else s

/-- The live file a memory type designates
(`self.detection_memory_file if memory_type == "detection" else
self.trust_memory_file`). -/
def targetFile (st : ManagerState) (mt : String) : Playbook :=
  if mt = "detection" then st.detection_file else st.trust_file

/-- PlaybookManager._save_memory: when `backup` is set, first copy the
existing live file into the history directory under
`{memory_type}_{playbook.version}_{timestamp}.json`, then overwrite the
live file with `playbook`. -/
def saveMemory (st : ManagerState) (pb : Playbook) (mt : String)
    (backup : Bool) (now : Nat) : ManagerState :=
  let hist :=
    if backup then st.history ++ [⟨mt, pb.version, now, targetFile st mt⟩]
    else st.history
  if mt = "detection" then { st with detection_file := pb, history := hist }
  else { st with trust_file := pb, history := hist }

/-- The tail of apply_delta_update shared by the four mutating actions:
bump the minor version (ValueError escapes), increment
total_cases_processed, save with backup. -/
def bumpAndSave (st : ManagerState) (pb : Playbook) (mt : String)
    (now : Nat) : DeltaResult :=
  match bumpVersion pb.version with
  | none => .exn .valueError st
  | some v =>
    let pb' := { pb with
                 version := v
                 total_cases_processed := pb.total_cases_processed + 1 }
    .ok (saveMemory st pb' mt true now) pb'

/-- `rule.rule_id == delta.target_rule_id` (False when the target id is
None). -/
def ruleMatches (r : Rule) (tid : Option String) : Bool :=
  some r.rule_id == tid

/-- The update_rule loop: overwrite the named fields on the first rule whose
id matches, leave every other record untouched. -/
def updateFirstRule (tid : Option String) (fields : List (String × FieldVal)) :
    List Rule → List Rule
  | [] => []
  | r :: rest =>
    if ruleMatches r tid then fields.foldl setattrRule r :: rest
    else r :: updateFirstRule tid fields rest

/-- The deprecate_rule loop: set `active = False` on the first rule whose id
matches. -/
def deprecateFirstRule (tid : Option String) : List Rule → List Rule
  | [] => []
  | r :: rest =>
    if ruleMatches r tid then { r with active := false } :: rest
    else r :: deprecateFirstRule tid rest

/-- Whether some rule in the list matches the target id. -/
def existsTarget (rules : List Rule) (tid : Option String) : Bool :=
  rules.any (fun r => ruleMatches r tid)

/-- PlaybookManager.apply_delta_update.  `now` is the current time used for
`created_at`/`last_updated`/backup timestamps during this call. -/
def applyDeltaUpdate (st : ManagerState) (d : DeltaUpdate) (now : Nat) :
    DeltaResult :=
  let mt := memoryTypeOf d
  let playbook := targetFile st mt
  match d.action with
  | .add_rule =>
    match d.new_rule with
    | none => .exn .attributeError st
      -- add_rule appends delta.new_rule to the in-memory list even when it is
      -- None, then `print(f"... {delta.new_rule.rule_id}")` raises
      -- AttributeError before the version bump and save; the files are
      -- untouched.
    | some r =>
      bumpAndSave st (playbook.add_rule { r with memory_type := some mt } now)
        mt now
  | .update_rule =>
    if existsTarget playbook.rules d.target_rule_id then
      match d.update_fields with
      | none => .exn .attributeError st
        -- `delta.update_fields.items()` on None, raised on the first match,
        -- before any field is written and before any save.
      | some fields =>
        bumpAndSave st
          { playbook with
            rules := updateFirstRule d.target_rule_id fields playbook.rules }
          mt now
    else
      -- No matching rule: the loop body never runs; control falls through to
      -- the version bump and save.
      bumpAndSave st playbook mt now
  | .deprecate_rule =>
    bumpAndSave st
      { playbook with
        rules := deprecateFirstRule d.target_rule_id playbook.rules }
      mt now
  | .refine_rule =>
    match d.new_rule with
    | none => .exn .attributeError st
    | some r =>
      bumpAndSave st (playbook.add_rule { r with memory_type := some mt } now)
        mt now
  | .no_action =>
    let pb := { playbook with
                total_cases_processed := playbook.total_cases_processed + 1 }
    .ok (saveMemory st pb mt false now) pb

/-- One applied request as seen by a driver that catches exceptions: the
resulting on-disk state (unchanged when the request raised). -/
def runDelta (st : ManagerState) (d : DeltaUpdate) (now : Nat) : ManagerState :=
  match applyDeltaUpdate st d now with
  | .ok st' _ => st'
  | .exn _ st' => st'

/-- A whole sequence of requests, each with its timestamp. -/
def runDeltas (st : ManagerState) : List (DeltaUpdate × Nat) → ManagerState
  | [] => st
  | (d, t) :: rest => runDeltas (runDelta st d t) rest

/- ### Read views (playbook_manager.py) -/

/-- Rules whose key fields the brief summary prints, in print order: the
active detection rules, then the active trust rules
(get_rules_brief_summary; get_rules_summary iterates the same lists). -/
def briefSummaryRules (st : ManagerState) : List Rule :=
  st.detection_file.rules.filter (fun r => r.active) ++
    st.trust_file.rules.filter (fun r => r.active)

/-- `rule.memory_type = mt` performed at read time before inserting into
`all_rules`. -/
def tagRule (r : Rule) (mt : String) : Rule := { r with memory_type := some mt }

/-- One pass of the `all_rules` dict build in get_rules_by_ids:
`for rule in rules: if rule.active: rule.memory_type = mt;
all_rules[rule.rule_id] = rule`.  The dict is modelled as a lookup function;
a later insert for the same key overwrites the earlier one. -/
def insertActiveRules (m : String → Option Rule) (mt : String) :
    List Rule → (String → Option Rule)
  | [] => m
  | r :: rest =>
    if r.active then
      insertActiveRules
        (fun k => if k = r.rule_id then some (tagRule r mt) else m k) mt rest
    else insertActiveRules m mt rest

/-- The finished `all_rules` dict of get_rules_by_ids: detection pass first,
trust pass second. -/
def allActiveRules (st : ManagerState) : String → Option Rule :=
  insertActiveRules
    (insertActiveRules (fun _ => none) "detection" st.detection_file.rules)
    "trust" st.trust_file.rules

/-- The `selected_rules` list of get_rules_by_ids: the requested ids that hit
the dict, in request order. -/
def getSelectedRules (st : ManagerState) (rule_ids : List String) : List Rule :=
  rule_ids.filterMap (allActiveRules st)

/-- tools/playbook_tool.py search_rule_by_id: first id match in the detection
file (active or not), else first match in the trust file; the returned label
is the memory the match came from. -/
def searchRuleById (st : ManagerState) (rid : String) : Option (Rule × String) :=
  match st.detection_file.rules.find? (fun r => r.rule_id = rid) with
  | some r => some (r, "detection")
  | none =>
    (st.trust_file.rules.find? (fun r => r.rule_id = rid)).map
      (fun r => (r, "trust"))

/- ### Classification policy (agents/curator.py, lines 75-87) -/

/-- The script-based memory classification in CuratorAgent.curate: a mutating
action goes to "trust" exactly when the case verdict is the literal "True",
otherwise (including "False" and "Unverifiable") to "detection"; `no_action`
defaults to "detection". -/
def classifyTargetMemory (a : DeltaAction) (verdict : String) : String :=
  if a = .add_rule ∨ a = .refine_rule ∨ a = .update_rule ∨ a = .deprecate_rule
  then if verdict = "True" then "trust" else "detection"
  else "detection"

/- ### Pydantic field validators (schemas/playbook.py) -/

/-- A JSON value appearing in a raw rule payload (containers, which the
validators under scrutiny never receive, are not modelled). -/
inductive JVal where
  | jInt : Int → JVal
  | jNum : ℚ → JVal
  | jStr : String → JVal
  | jBool : Bool → JVal
  | jNull : JVal
deriving DecidableEq

/-- Python `float(v)` on a JSON value: numbers and bools convert, strings
parse, `None` raises TypeError (`none` covers both failure exceptions, which
the callers catch together). -/
def pyFloatOf (v : JVal) : Option ℚ :=
  match v with
  | .jInt n => some (n : ℚ)
  | .jNum q => some q
  | .jBool b => some (if b then 1 else 0)
  | .jStr s => pyFloat s.toList
  | .jNull => none

/-- Python `int(q)` on a float: truncation toward zero. -/
def pyTrunc (q : ℚ) : Int := if 0 ≤ q then ⌊q⌋ else ⌈q⌉

/-- Rule.validate_confidence (mode='before'): coerce with `float`, clamp to
`[0.0, 1.0]`, default to `0.5` when the conversion raises. -/
def validate_confidence (v : JVal) : ℚ :=
  match pyFloatOf v with
  | none => 1 / 2
  | some conf => if conf < 0 then 0 else if 1 < conf then 1 else conf

/-- Python `str.lower` on one character (ASCII range; the heuristic pattern
below is pure ASCII). -/
def pyLowerChar (c : Char) : Char :=
  if 65 ≤ c.toNat ∧ c.toNat ≤ 90 then Char.ofNat (c.toNat + 32) else c

/-- The `'original value + 1' in v.lower() or '+' in v` heuristic of
Rule.fix_evidence_count. -/
def evidenceHeuristic (s : String) : Bool :=
  listContainsSub ("original value + 1".toList) (s.toList.map pyLowerChar) ||
    s.toList.contains '+'

/-- Rule.fix_evidence_count (mode='before'): strings are repaired (the `+`
heuristic, then an int parse, defaulting to 1); any other value goes through
`int(v)`, whose TypeError on `None` escapes uncaught. -/
def fix_evidence_count (v : JVal) : Except PyError Int :=
  match v with
  | .jStr s =>
    if evidenceHeuristic s then .ok 1
    else
      match pyInt s.toList with
      | some n => .ok n
      | none => .ok 1
  | .jInt n => .ok n
  | .jBool b => .ok (if b then 1 else 0)
  | .jNum q => .ok (pyTrunc q)
  | .jNull => .error .typeError

/-- Rule.validate_type (mode='before'): any value outside the three valid
literals is coerced to "strategy". -/
def validate_type (v : JVal) : String :=
  match v with
  | .jStr s =>
    if s = "strategy" ∨ s = "tool_template" ∨ s = "pitfall" then s
    else "strategy"
  | _ => "strategy"

/-- The confidence field as pydantic finally accepts it: the before-validator
runs first, then the declared `ge=0.0, le=1.0` bounds are enforced. -/
def validateConfidenceField (v : JVal) : Except PyError ℚ :=
  let c := validate_confidence v
  if 0 ≤ c ∧ c ≤ 1 then .ok c else .error .validationError

/- ### Validator / auto-fixer (utils/playbook_validator.py) -/

/-- A raw rule object in a partition file, as the four fields the fixer
touches (absent key = `none`; every other key is carried through the fixer
untouched and is omitted from the model). -/
structure RuleObj where
  evidence_count : Option JVal
  type : Option JVal
  confidence : Option JVal
  memory_type : Option JVal
deriving DecidableEq

/-- Python truthiness of a JSON scalar. -/
def jTruthy : JVal → Bool
  | .jStr s => !(s = "")
  | .jInt n => !(n = 0)
  | .jNum q => !(q = 0)
  | .jBool b => b
  | .jNull => false

/-- Membership of a JSON value in VALID_TYPES. -/
def jvalIsValidType : JVal → Bool
  | .jStr s => s = "strategy" || s = "tool_template" || s = "pitfall"
  | _ => false

/-- Membership of a JSON value in VALID_MEMORIES. -/
def jvalIsValidMemory : JVal → Bool
  | .jStr s => s = "detection" || s = "trust"
  | _ => false

/-- The evidence_count paragraph of _validate_and_fix_rule; returns the new
field value and the numbers of issues and fixes recorded.  A Python bool is
an `int` instance and passes the `isinstance(ec, int)` test. -/
def fixEvidenceField : Option JVal → Option JVal × Nat × Nat
  | none => (none, 0, 0)
  | some v =>
    match v with
    | .jStr s =>
      match pyInt s.toList with
      | some n => (some (.jInt n), 1, 1)
      | none => (some (.jInt 1), 1, 1)
    | .jInt n => (some (.jInt n), 0, 0)
    | .jBool b => (some (.jBool b), 0, 0)
    | .jNum _ => (some (.jInt 1), 1, 1)
    | .jNull => (some (.jInt 1), 1, 1)

/-- The type paragraph of _validate_and_fix_rule. -/
def fixTypeField : Option JVal → Option JVal × Nat × Nat
  | none => (none, 0, 0)
  | some v =>
    if jvalIsValidType v then (some v, 0, 0)
    else (some (.jStr "strategy"), 1, 1)

/-- The confidence paragraph of _validate_and_fix_rule: out-of-range values
are clamped, unconvertible values reset to 0.5, in-range values left exactly
as stored (even when stored as a string). -/
def fixConfidenceField : Option JVal → Option JVal × Nat × Nat
  | none => (none, 0, 0)
  | some v =>
    match pyFloatOf v with
    | none => (some (.jNum (1 / 2)), 1, 1)
    | some c =>
      if c < 0 then (some (.jNum 0), 1, 1)
      else if 1 < c then (some (.jNum 1), 1, 1)
      else (some v, 0, 0)

/-- The memory_type paragraph of _validate_and_fix_rule. -/
def fixMemoryField : Option JVal → Option JVal × Nat × Nat
  | none => (none, 0, 0)
  | some v =>
    if jTruthy v && !jvalIsValidMemory v then (some (.jStr "detection"), 1, 1)
    else (some v, 0, 0)

/-- PlaybookValidator._validate_and_fix_rule on one rule object. -/
def fixRuleObj (r : RuleObj) : RuleObj × Nat × Nat :=
  let e := fixEvidenceField r.evidence_count
  let t := fixTypeField r.type
  let c := fixConfidenceField r.confidence
  let m := fixMemoryField r.memory_type
  (⟨e.1, t.1, c.1, m.1⟩,
    e.2.1 + t.2.1 + c.2.1 + m.2.1, e.2.2 + t.2.2 + c.2.2 + m.2.2)

/-- The rule loop of validate_and_fix_file, totalling issues and fixes. -/
def fixRulesList : List RuleObj → List RuleObj × Nat × Nat
  | [] => ([], 0, 0)
  | r :: rest =>
    let h := fixRuleObj r
    let t := fixRulesList rest
    (h.1 :: t.1, h.2.1 + t.2.1, h.2.2 + t.2.2)

/-- A parsed partition file as the validator sees it (`'rules' in data`). -/
structure FileObj where
  rules : Option (List RuleObj)
deriving DecidableEq

/-- The issues/fixes counters of the report dictionary that
validate_and_fix_file returns. -/
structure ValidationReport where
  issues_found : Nat
  fixes_applied : Nat
deriving DecidableEq

/-- PlaybookValidator.validate_and_fix_file on an already-parsed file:
returns the file content afterwards on disk (rewritten only when at least
one fix was applied) together with the report. -/
def validate_and_fix_file (f : FileObj) : FileObj × ValidationReport :=
  match f.rules with
  | none => (f, ⟨0, 0⟩)
  | some rs =>
    let t := fixRulesList rs
    if t.2.2 = 0 then (f, ⟨t.2.1, t.2.2⟩)
    else (⟨some t.1⟩, ⟨t.2.1, t.2.2⟩)

/- ### Frozen-claim statements that the code refutes (formalised as stated,
to be disproved below) -/

/-- Claim C1 as stated: an update/deprecate request whose target id matches
no rule leaves the partition state exactly as it was and raises no error. -/
def claimC1Prop : Prop :=
  ∀ st d now,
    (d.action = .update_rule ∨ d.action = .deprecate_rule) →
    existsTarget (targetFile st (memoryTypeOf d)).rules d.target_rule_id
      = false →
    ∃ pb, applyDeltaUpdate st d now = .ok st pb

/-- Claim C3 as stated: validation clamps confidence into `[0, 1]` (never
erroring on it) and accepted evidence_count values are non-negative. -/
def claimC3Prop : Prop :=
  (∀ v, 0 ≤ validate_confidence v ∧ validate_confidence v ≤ 1) ∧
  (∀ v, validateConfidenceField v = .ok (validate_confidence v)) ∧
  (∀ v n, fix_evidence_count v = .ok n → 0 ≤ n)

/-- Claim C4 as stated: every backup snapshot taken by a mutating save is
filed under the partition name, the PRIOR (pre-bump) version and the
timestamp, and holds the prior live file. -/
def claimC4Prop : Prop :=
  ∀ st d now st' pb, d.action ≠ .no_action →
    applyDeltaUpdate st d now = .ok st' pb →
    st'.history = st.history ++
      [⟨memoryTypeOf d, (targetFile st (memoryTypeOf d)).version, now,
        targetFile st (memoryTypeOf d)⟩]

/- ### Concrete instances for witnesses and counterexamples -/

/-- A well-formed sample rule. -/
def rEx : Rule :=
  { rule_id := "shr-00001", type := "strategy", condition := "c",
    action := "a", confidence := 1, evidence_count := 1,
    created_from := none, created_at := 0, parent_rule := none,
    description := "d", active := true, memory_type := none }

/-- A second sample rule (same id, living in the other partition). -/
def rEx2 : Rule :=
  { rule_id := "shr-00001", type := "pitfall", condition := "c2",
    action := "a2", confidence := 0, evidence_count := 2,
    created_from := none, created_at := 0, parent_rule := none,
    description := "d2", active := true, memory_type := none }

/-- Fresh dual-memory state as `_initialize_playbook` creates it. -/
def stEmpty : ManagerState :=
  { detection_file :=
      { version := "v1.0", rules := [], last_updated := 0,
        total_cases_processed := 0 },
    trust_file :=
      { version := "v1.0", rules := [], last_updated := 0,
        total_cases_processed := 0 },
    history := [] }

/-- A state whose detection partition holds `rEx`. -/
def stOneRule : ManagerState :=
  { detection_file :=
      { version := "v1.0", rules := [rEx], last_updated := 0,
        total_cases_processed := 1 },
    trust_file :=
      { version := "v1.0", rules := [], last_updated := 0,
        total_cases_processed := 0 },
    history := [] }

/-- A state with the same rule id active in both partitions. -/
def stBoth : ManagerState :=
  { detection_file :=
      { version := "v1.0", rules := [rEx], last_updated := 0,
        total_cases_processed := 1 },
    trust_file :=
      { version := "v1.0", rules := [rEx2], last_updated := 0,
        total_cases_processed := 1 },
    history := [] }

/-- An add_rule request carrying `rEx`. -/
def dAddEx : DeltaUpdate :=
  { action := .add_rule, new_rule := some rEx, reason := "add",
    target_memory := some "detection" }

/-- An update_rule request whose target id matches nothing. -/
def dUpdMissEx : DeltaUpdate :=
  { action := .update_rule, target_rule_id := some "zzz",
    update_fields := some [], reason := "upd",
    target_memory := some "detection" }

/-- A deprecate_rule request for `rEx`. -/
def dDepEx : DeltaUpdate :=
  { action := .deprecate_rule, target_rule_id := some "shr-00001",
    reason := "dep", target_memory := some "detection" }

/-- A no_action request. -/
def dNoneEx : DeltaUpdate :=
  { action := .no_action, reason := "nothing",
    target_memory := some "detection" }

/-- An add_rule request missing its new_rule payload. -/
def dAddNoRuleEx : DeltaUpdate :=
  { action := .add_rule, new_rule := none, reason := "bad",
    target_memory := some "detection" }

/- ### Lemmas: decimal rendering and parsing -/

theorem digitCh_bounds (d : Nat) (hd : d ≤ 9) :
    48 ≤ (digitCh d).toNat ∧ (digitCh d).toNat ≤ 57 := by
  interval_cases d <;> decide

theorem digitVal_digitCh (d : Nat) (hd : d ≤ 9) :
    digitVal (digitCh d) = some d := by
  interval_cases d <;> rfl

theorem natToCharsRec_digits (n : Nat) :
    ∀ c ∈ natToCharsRec n, 48 ≤ c.toNat ∧ c.toNat ≤ 57 := by
  induction n using natToCharsRec.induct with
  | case1 n h =>
    intro c hc
    rw [natToCharsRec, dif_pos h] at hc
    rcases List.mem_singleton.mp hc with rfl
    exact digitCh_bounds n (by omega)
  | case2 n h ih =>
    intro c hc
    rw [natToCharsRec, dif_neg h] at hc
    rcases List.mem_append.mp hc with h1 | h1
    · exact ih c h1
    · rcases List.mem_singleton.mp h1 with rfl
      exact digitCh_bounds _ (by omega)

theorem natToCharsRec_ne_nil (n : Nat) : natToCharsRec n ≠ [] := by
  rw [natToCharsRec]
  split <;> simp

theorem parseDigitsAux_append (xs ys : List Char) (a : Nat) :
    parseDigitsAux (xs ++ ys) a =
      (parseDigitsAux xs a).bind (fun b => parseDigitsAux ys b) := by
  induction xs generalizing a with
  | nil => simp [parseDigitsAux]
  | cons c cs ih =>
    simp only [List.cons_append, parseDigitsAux]
    cases digitVal c with
    | none => rfl
    | some d => exact ih _

theorem parseDigitsAux_natToCharsRec (n : Nat) :
    ∀ a, parseDigitsAux (natToCharsRec n) a =
      some (a * 10 ^ (natToCharsRec n).length + n) := by
  induction n using natToCharsRec.induct with
  | case1 n h =>
    intro a
    rw [natToCharsRec, dif_pos h]
    simp only [parseDigitsAux, digitVal_digitCh n (by omega), List.length_cons,
      List.length_nil]
    rw [pow_one]
  | case2 n h ih =>
    intro a
    rw [natToCharsRec, dif_neg h]
    rw [parseDigitsAux_append, ih a]
    simp only [Option.some_bind, parseDigitsAux,
      digitVal_digitCh (n % 10) (by omega), List.length_append,
      List.length_cons, List.length_nil]
    congr 1
    have key : ∀ K : Nat, (K + n / 10) * 10 + n % 10 = K * 10 + n := by
      intro K; omega
    rw [pow_succ, ← mul_assoc]
    exact key _

theorem parseDigits_natToCharsRec (n : Nat) :
    parseDigits (natToCharsRec n) = some n := by
  rcases List.exists_cons_of_ne_nil (natToCharsRec_ne_nil n) with ⟨c, cs, hc⟩
  rw [hc]
  show parseDigitsAux (c :: cs) 0 = some n
  rw [← hc, parseDigitsAux_natToCharsRec n 0]
  simp

theorem natToCharsAux_eq (fuel : Nat) :
    ∀ n acc, n < 10 ^ fuel → 1 ≤ fuel →
      natToCharsAux fuel n acc = natToCharsRec n ++ acc := by
  induction fuel with
  | zero => omega
  | succ f ih =>
    intro n acc hn _
    by_cases h : n < 10
    · simp only [natToCharsAux]
      rw [if_pos h, natToCharsRec, dif_pos h]
      rfl
    · have hf : 1 ≤ f := by
        rcases Nat.eq_zero_or_pos f with rfl | hf
        · rw [pow_one] at hn; omega
        · exact hf
      have hdiv : n / 10 < 10 ^ f := by
        rw [Nat.div_lt_iff_lt_mul (by omega)]
        calc n < 10 ^ (f + 1) := hn
        _ = 10 ^ f * 10 := pow_succ 10 f
      conv_rhs => rw [natToCharsRec]
      rw [dif_neg h]
      simp only [natToCharsAux]
      rw [if_neg h, ih (n / 10) _ hdiv hf, List.append_assoc]
      rfl

theorem natToChars_eq (n : Nat) : natToChars n = natToCharsRec n := by
  have h1 : n < 10 ^ (n + 1) :=
    lt_of_lt_of_le (Nat.lt_pow_self (by omega) n)
      (Nat.pow_le_pow_right (by omega) (by omega))
  rw [natToChars, natToCharsAux_eq (n + 1) n [] h1 (by omega),
    List.append_nil]

theorem natToChars_digits (n : Nat) :
    ∀ c ∈ natToChars n, 48 ≤ c.toNat ∧ c.toNat ≤ 57 := by
  rw [natToChars_eq]; exact natToCharsRec_digits n

theorem natToChars_ne_nil (n : Nat) : natToChars n ≠ [] := by
  rw [natToChars_eq]; exact natToCharsRec_ne_nil n

theorem parseDigits_natToChars (n : Nat) : parseDigits (natToChars n) = some n := by
  rw [natToChars_eq]; exact parseDigits_natToCharsRec n

/- ### Lemmas: integers and their renderings -/

theorem intToChars_chars (m : Int) :
    ∀ c ∈ intToChars m, c = '-' ∨ (48 ≤ c.toNat ∧ c.toNat ≤ 57) := by
  intro c hc
  rw [intToChars] at hc
  split at hc
  · rcases List.mem_cons.mp hc with rfl | hc
    · left; rfl
    · right; exact natToChars_digits _ c hc
  · right; exact natToChars_digits _ c hc

theorem v_not_mem_intToChars (m : Int) : 'v' ∉ intToChars m := by
  intro h
  rcases intToChars_chars m _ h with h1 | ⟨_, h2⟩
  · exact absurd h1 (by decide)
  · exact absurd h2 (by decide)

theorem dot_not_mem_intToChars (m : Int) : '.' ∉ intToChars m := by
  intro h
  rcases intToChars_chars m _ h with h1 | ⟨h1, _⟩
  · exact absurd h1 (by decide)
  · exact absurd h1 (by decide)

theorem pyInt_intToChars (m : Int) : pyInt (intToChars m) = some m := by
  by_cases hm : m < 0
  · rw [intToChars, if_pos hm]
    have hstep : pyInt ('-' :: natToChars m.natAbs) =
        (parseDigits (natToChars m.natAbs)).map (fun n => -(n : Int)) := by
      simp [pyInt]
    rw [hstep, parseDigits_natToChars]
    show some (-((m.natAbs : Nat) : Int)) = some m
    congr 1
    omega
  · rw [intToChars, if_neg hm]
    rcases List.exists_cons_of_ne_nil (natToChars_ne_nil m.toNat) with
      ⟨c, cs, hc⟩
    have hd : 48 ≤ c.toNat ∧ c.toNat ≤ 57 :=
      natToChars_digits m.toNat c (by rw [hc]; exact List.mem_cons_self c cs)
    have h1 : ¬(c = '-') := by rintro rfl; revert hd; decide
    have h2 : ¬(c = '+') := by rintro rfl; revert hd; decide
    have hstep : pyInt (c :: cs) =
        (parseDigits (c :: cs)).map (fun n => (n : Int)) := by
      simp only [pyInt]
      rw [if_neg h1, if_neg h2]
    rw [hc, hstep, ← hc, parseDigits_natToChars]
    show some ((m.toNat : Int)) = some m
    congr 1
    omega

/- ### Lemmas: pySplit -/

theorem pySplit_ne_nil (sep : Char) (cs : List Char) : pySplit sep cs ≠ [] := by
  induction cs with
  | nil => simp [pySplit]
  | cons c cs ih =>
    simp only [pySplit]
    split
    · simp
    · rcases h : pySplit sep cs with _ | ⟨p, ps⟩
      · exact absurd h ih
      · simp

theorem pySplit_no_sep (sep : Char) (cs : List Char) (h : sep ∉ cs) :
    pySplit sep cs = [cs] := by
  induction cs with
  | nil => rfl
  | cons c cs ih =>
    simp only [List.mem_cons, not_or] at h
    simp only [pySplit]
    rw [if_neg (fun hEq => h.1 hEq.symm), ih h.2]

theorem pySplit_append (sep : Char) (a b : List Char) (ha : sep ∉ a) :
    pySplit sep (a ++ sep :: b) = a :: pySplit sep b := by
  induction a with
  | nil => simp [pySplit]
  | cons c a ih =>
    simp only [List.mem_cons, not_or] at ha
    simp only [List.cons_append, pySplit, List.append_eq]
    rw [if_neg (fun hEq => ha.1 hEq.symm), ih ha.2]

theorem pySplit_parts_no_sep (sep : Char) (cs : List Char) :
    ∀ p ∈ pySplit sep cs, sep ∉ p := by
  induction cs with
  | nil =>
    intro p hp
    simp only [pySplit, List.mem_singleton] at hp
    subst hp; simp
  | cons c cs ih =>
    intro p hp
    simp only [pySplit] at hp
    by_cases h : c = sep
    · rw [if_pos h] at hp
      rcases List.mem_cons.mp hp with rfl | hp
      · simp
      · exact ih p hp
    · rw [if_neg h] at hp
      rcases hps : pySplit sep cs with _ | ⟨q, qs⟩
      · exact absurd hps (pySplit_ne_nil sep cs)
      · rw [hps] at hp
        rcases List.mem_cons.mp hp with rfl | hp
        · intro hmem
          rcases List.mem_cons.mp hmem with hEq | hmem
          · exact h hEq.symm
          · exact ih q (by rw [hps]; exact List.mem_cons_self _ _) hmem
        · exact ih p (by rw [hps]; exact List.mem_cons_of_mem _ hp)

theorem pySplit_parts_subset (sep : Char) (cs : List Char) :
    ∀ p ∈ pySplit sep cs, ∀ x ∈ p, x ∈ cs := by
  induction cs with
  | nil =>
    intro p hp
    simp only [pySplit, List.mem_singleton] at hp
    subst hp; simp
  | cons c cs ih =>
    intro p hp x hx
    simp only [pySplit] at hp
    by_cases h : c = sep
    · rw [if_pos h] at hp
      rcases List.mem_cons.mp hp with rfl | hp
      · exact absurd hx (List.not_mem_nil x)
      · exact List.mem_cons_of_mem _ (ih p hp x hx)
    · rw [if_neg h] at hp
      rcases hps : pySplit sep cs with _ | ⟨q, qs⟩
      · exact absurd hps (pySplit_ne_nil sep cs)
      · rw [hps] at hp
        rcases List.mem_cons.mp hp with rfl | hp
        · rcases List.mem_cons.mp hx with rfl | hx
          · exact List.mem_cons_self _ _
          · exact List.mem_cons_of_mem _
              (ih q (by rw [hps]; exact List.mem_cons_self _ _) x hx)
        · exact List.mem_cons_of_mem _
            (ih p (by rw [hps]; exact List.mem_cons_of_mem _ hp) x hx)

theorem splitTwo_some {l : List (List Char)} {a b : List Char}
    (h : splitTwo l = some (a, b)) : l = [a, b] := by
  rcases l with _ | ⟨x, l1⟩
  · simp [splitTwo] at h
  rcases l1 with _ | ⟨y, l2⟩
  · simp [splitTwo] at h
  rcases l2 with _ | ⟨z, l3⟩
  · simp only [splitTwo, Option.some_inj, Prod.mk.injEq] at h
    rw [h.1, h.2]
  · simp [splitTwo] at h

/- ### Lemmas: version strings -/

theorem mem_pyRemoveChar_ne (ch : Char) (cs : List Char) :
    ∀ c ∈ pyRemoveChar ch cs, c ≠ ch := by
  intro c hc
  rw [pyRemoveChar] at hc
  have h := List.mem_filter.mp hc
  simpa using h.2

theorem pyRemoveChar_eq_self (ch : Char) (cs : List Char) (h : ch ∉ cs) :
    pyRemoveChar ch cs = cs := by
  rw [pyRemoveChar]
  apply List.filter_eq_self.mpr
  intro a ha
  simp only [ne_eq, decide_eq_true_eq]
  exact fun hEq => h (hEq ▸ ha)

theorem parseVersion_mkVersionString (maj : List Char) (m : Int)
    (hv : 'v' ∉ maj) (hd : '.' ∉ maj) :
    parseVersion (mkVersionString maj m) = some (maj, m) := by
  have htl : (mkVersionString maj m).toList =
      'v' :: (maj ++ '.' :: intToChars m) := rfl
  rw [parseVersion, htl]
  have h1 : pyRemoveChar 'v' ('v' :: (maj ++ '.' :: intToChars m))
      = pyRemoveChar 'v' (maj ++ '.' :: intToChars m) := by
    simp [pyRemoveChar]
  have h2 : pyRemoveChar 'v' (maj ++ '.' :: intToChars m)
      = maj ++ '.' :: intToChars m := by
    apply pyRemoveChar_eq_self
    intro hmem
    rcases List.mem_append.mp hmem with h3 | h3
    · exact hv h3
    · rcases List.mem_cons.mp h3 with h4 | h4
      · exact absurd h4 (by decide)
      · exact v_not_mem_intToChars m h4
  rw [h1, h2, pySplit_append '.' maj (intToChars m) hd,
    pySplit_no_sep '.' (intToChars m) (dot_not_mem_intToChars m)]
  show (splitTwo [maj, intToChars m]).bind _ = _
  rw [show splitTwo [maj, intToChars m] = some (maj, intToChars m) from rfl]
  simp [pyInt_intToChars]

theorem parseVersion_split {v : String} {maj : List Char} {n : Int}
    (h : parseVersion v = some (maj, n)) :
    ∃ minor, pySplit '.' (pyRemoveChar 'v' v.toList) = [maj, minor] ∧
      pyInt minor = some n := by
  rw [parseVersion] at h
  rcases hs : splitTwo (pySplit '.' (pyRemoveChar 'v' v.toList)) with _ | p
  · rw [hs] at h; simp at h
  · rw [hs] at h
    simp only [Option.some_bind] at h
    rcases hp : pyInt p.2 with _ | k
    · rw [hp] at h; simp at h
    · rw [hp] at h
      have h2 : (p.1, k) = (maj, n) := by
        rw [show (some k).map (fun j => (p.1, j)) = some (p.1, k) from rfl] at h
        exact Option.some.inj h
      obtain ⟨h3, h4⟩ := Prod.mk.injEq _ _ _ _ |>.mp h2
      refine ⟨p.2, ?_, ?_⟩
      · rw [← h3]
        exact splitTwo_some hs
      · rw [hp, h4]

theorem bumpVersion_of_parse {v : String} {maj : List Char} {n : Int}
    (h : parseVersion v = some (maj, n)) :
    bumpVersion v = some (mkVersionString maj (n + 1)) := by
  rcases parseVersion_split h with ⟨minor, hs, hm⟩
  rw [bumpVersion, hs]
  show (splitTwo [maj, minor]).bind _ = _
  rw [show splitTwo [maj, minor] = some (maj, minor) from rfl]
  simp [hm]

theorem parseVersion_major_props {v : String} {maj : List Char} {n : Int}
    (h : parseVersion v = some (maj, n)) : 'v' ∉ maj ∧ '.' ∉ maj := by
  rcases parseVersion_split h with ⟨minor, hs, _⟩
  have hmem : maj ∈ pySplit '.' (pyRemoveChar 'v' v.toList) := by
    rw [hs]; exact List.mem_cons_self _ _
  constructor
  · intro hv
    exact mem_pyRemoveChar_ne 'v' v.toList 'v'
      (pySplit_parts_subset '.' _ maj hmem 'v' hv) rfl
  · exact pySplit_parts_no_sep '.' _ maj hmem

theorem parseVersion_succ {v : String} {maj : List Char} {n : Int}
    (h : parseVersion v = some (maj, n)) :
    parseVersion (mkVersionString maj (n + 1)) = some (maj, n + 1) := by
  rcases parseVersion_major_props h with ⟨hv, hd⟩
  exact parseVersion_mkVersionString maj (n + 1) hv hd

theorem bumpVersion_some_parse {v w : String} (h : bumpVersion v = some w) :
    ∃ maj n, parseVersion v = some (maj, n) ∧
      w = mkVersionString maj (n + 1) := by
  rw [bumpVersion] at h
  rcases hs : splitTwo (pySplit '.' (pyRemoveChar 'v' v.toList)) with _ | p
  · rw [hs] at h; simp at h
  · rw [hs] at h
    simp only [Option.some_bind] at h
    rcases hp : pyInt p.2 with _ | k
    · rw [hp] at h; simp at h
    · rw [hp] at h
      rw [show (some k).map (fun j => mkVersionString p.1 (j + 1)) =
        some (mkVersionString p.1 (k + 1)) from rfl] at h
      refine ⟨p.1, k, ?_, (Option.some.inj h).symm⟩
      rw [parseVersion, hs]
      simp [hp]

theorem versionLe_refl (a : String) : versionLe a a := Or.inl rfl

theorem versionLe_of_bump {v w : String} (h : bumpVersion v = some w) :
    versionLe v w := by
  rcases bumpVersion_some_parse h with ⟨maj, n, hp, rfl⟩
  right
  exact ⟨maj, n, n + 1, hp, parseVersion_succ hp, by omega⟩

theorem versionLe_trans {a b c : String} (hab : versionLe a b)
    (hbc : versionLe b c) : versionLe a c := by
  rcases hab with rfl | ⟨maj, m, n, ha, hb, hmn⟩
  · exact hbc
  · rcases hbc with rfl | ⟨maj', m', n', hb', hc', h'⟩
    · right; exact ⟨maj, m, n, ha, hb, hmn⟩
    · rw [hb] at hb'
      obtain ⟨h1, h2⟩ := Prod.mk.injEq _ _ _ _ |>.mp (Option.some.inj hb')
      right
      refine ⟨maj, m, n', ha, ?_, ?_⟩
      · rw [h1]; exact hc'
      · omega

theorem natToChars_no_v (M : Nat) : 'v' ∉ natToChars M := by
  intro h
  exact absurd (natToChars_digits M 'v' h).2 (by decide)

theorem natToChars_no_dot (M : Nat) : '.' ∉ natToChars M := by
  intro h
  exact absurd (natToChars_digits M '.' h).1 (by decide)

theorem canonVersion_eq_mk (M N : Nat) :
    canonVersion M N = mkVersionString (natToChars M) (N : Int) := by
  rfl

theorem parseVersion_canonVersion (M N : Nat) :
    parseVersion (canonVersion M N) = some (natToChars M, (N : Int)) := by
  rw [canonVersion_eq_mk]
  exact parseVersion_mkVersionString _ _ (natToChars_no_v M)
    (natToChars_no_dot M)

theorem bumpVersion_canonVersion (M N : Nat) :
    bumpVersion (canonVersion M N) = some (canonVersion M (N + 1)) := by
  rw [bumpVersion_of_parse (parseVersion_canonVersion M N),
    canonVersion_eq_mk]
  norm_num

/- ### Lemmas: _save_memory and apply_delta_update -/

theorem saveMemory_detection_file (st : ManagerState) (pb : Playbook)
    (mt : String) (b : Bool) (now : Nat) :
    (saveMemory st pb mt b now).detection_file =
      if mt = "detection" then pb else st.detection_file := by
  by_cases h : mt = "detection" <;> simp [saveMemory, h]

theorem saveMemory_trust_file (st : ManagerState) (pb : Playbook)
    (mt : String) (b : Bool) (now : Nat) :
    (saveMemory st pb mt b now).trust_file =
      if mt = "detection" then st.trust_file else pb := by
  by_cases h : mt = "detection" <;> simp [saveMemory, h]

theorem saveMemory_history (st : ManagerState) (pb : Playbook)
    (mt : String) (b : Bool) (now : Nat) :
    (saveMemory st pb mt b now).history =
      if b then st.history ++ [⟨mt, pb.version, now, targetFile st mt⟩]
      else st.history := by
  by_cases h : mt = "detection" <;> simp [saveMemory, h]

theorem targetFile_saveMemory (st : ManagerState) (pb : Playbook)
    (mt : String) (b : Bool) (now : Nat) :
    targetFile (saveMemory st pb mt b now) mt = pb := by
  by_cases h : mt = "detection" <;>
    simp [saveMemory, targetFile, h]

theorem bumpAndSave_ok {st : ManagerState} {pb : Playbook} {mt : String}
    {now : Nat} {st' : ManagerState} {pb' : Playbook}
    (h : bumpAndSave st pb mt now = .ok st' pb') :
    bumpVersion pb.version = some pb'.version ∧
    pb' = { pb with
            version := pb'.version
            total_cases_processed := pb.total_cases_processed + 1 } ∧
    st' = saveMemory st pb' mt true now := by
  rw [bumpAndSave] at h
  rcases hb : bumpVersion pb.version with _ | w
  · rw [hb] at h
    exact absurd h (by simp)
  · rw [hb] at h
    simp only at h
    injection h with h1 h2
    subst h1
    subst h2
    exact ⟨rfl, rfl, rfl⟩

theorem bumpAndSave_exn {st : ManagerState} {pb : Playbook} {mt : String}
    {now : Nat} {e : PyError} {st' : ManagerState}
    (h : bumpAndSave st pb mt now = .exn e st') : st' = st := by
  rw [bumpAndSave] at h
  rcases hb : bumpVersion pb.version with _ | w
  · rw [hb] at h
    simp only at h
    exact (DeltaResult.exn.inj h).2.symm
  · rw [hb] at h
    exact absurd h (by simp)

theorem applyDeltaUpdate_exn {st : ManagerState} {d : DeltaUpdate} {now : Nat}
    {e : PyError} {st' : ManagerState}
    (h : applyDeltaUpdate st d now = .exn e st') : st' = st := by
  obtain ⟨action, tid, nr, uf, rsn, tm⟩ := d
  cases action <;> simp only [applyDeltaUpdate] at h
  · rcases nr with _ | r
    · exact (DeltaResult.exn.inj h).2.symm
    · exact bumpAndSave_exn h
  · by_cases hex : existsTarget
        (targetFile st (memoryTypeOf ⟨.update_rule, tid, nr, uf, rsn, tm⟩)).rules
        tid
    · rw [if_pos hex] at h
      rcases uf with _ | fields
      · exact (DeltaResult.exn.inj h).2.symm
      · exact bumpAndSave_exn h
    · rw [if_neg hex] at h
      exact bumpAndSave_exn h
  · exact bumpAndSave_exn h
  · rcases nr with _ | r
    · exact (DeltaResult.exn.inj h).2.symm
    · exact bumpAndSave_exn h
  · exact absurd h (by simp)

theorem bumpAndSave_core {st : ManagerState} {pb0 : Playbook} {mt : String}
    {now : Nat} {st' : ManagerState} {pb : Playbook}
    (h : bumpAndSave st pb0 mt now = .ok st' pb)
    (hver : pb0.version = (targetFile st mt).version)
    (htot : pb0.total_cases_processed =
      (targetFile st mt).total_cases_processed) :
    bumpVersion (targetFile st mt).version = some pb.version ∧
    st' = saveMemory st pb mt true now ∧
    pb.total_cases_processed =
      (targetFile st mt).total_cases_processed + 1 := by
  obtain ⟨h1, h2, h3⟩ := bumpAndSave_ok h
  refine ⟨?_, h3, ?_⟩
  · rw [← hver]; exact h1
  · rw [h2]; simp [htot]

theorem applyDeltaUpdate_mutating {st : ManagerState} {d : DeltaUpdate}
    {now : Nat} {st' : ManagerState} {pb : Playbook}
    (ha : d.action ≠ .no_action)
    (h : applyDeltaUpdate st d now = .ok st' pb) :
    bumpVersion (targetFile st (memoryTypeOf d)).version = some pb.version ∧
    st' = saveMemory st pb (memoryTypeOf d) true now ∧
    pb.total_cases_processed =
      (targetFile st (memoryTypeOf d)).total_cases_processed + 1 := by
  obtain ⟨action, tid, nr, uf, rsn, tm⟩ := d
  cases action with
  | add_rule =>
    rcases nr with _ | r
    · exact absurd h (by simp [applyDeltaUpdate])
    · exact bumpAndSave_core h rfl rfl
  | update_rule =>
    simp only [applyDeltaUpdate] at h
    by_cases hex : existsTarget
        (targetFile st
          (memoryTypeOf ⟨.update_rule, tid, nr, uf, rsn, tm⟩)).rules tid
    · rw [if_pos hex] at h
      rcases uf with _ | fields
      · exact absurd h (by simp)
      · exact bumpAndSave_core h rfl rfl
    · rw [if_neg hex] at h
      exact bumpAndSave_core h rfl rfl
  | deprecate_rule => exact bumpAndSave_core h rfl rfl
  | refine_rule =>
    rcases nr with _ | r
    · exact absurd h (by simp [applyDeltaUpdate])
    · exact bumpAndSave_core h rfl rfl
  | no_action => exact absurd rfl ha

theorem applyDeltaUpdate_no_action (st : ManagerState) (d : DeltaUpdate)
    (now : Nat) (ha : d.action = .no_action) :
    applyDeltaUpdate st d now =
      .ok (saveMemory st
            { targetFile st (memoryTypeOf d) with
              total_cases_processed :=
                (targetFile st (memoryTypeOf d)).total_cases_processed + 1 }
            (memoryTypeOf d) false now)
          { targetFile st (memoryTypeOf d) with
            total_cases_processed :=
              (targetFile st (memoryTypeOf d)).total_cases_processed + 1 } := by
  obtain ⟨action, tid, nr, uf, rsn, tm⟩ := d
  cases ha
  rfl

theorem targetFile_detection (st : ManagerState) :
    targetFile st "detection" = st.detection_file := rfl

theorem targetFile_trust (st : ManagerState) :
    targetFile st "trust" = st.trust_file := rfl

theorem targetFile_saveMemory_cases (st : ManagerState) (pb : Playbook)
    (mt : String) (b : Bool) (now : Nat) (f : String) :
    (targetFile (saveMemory st pb mt b now) f = pb ∧
      targetFile st f = targetFile st mt) ∨
    targetFile (saveMemory st pb mt b now) f = targetFile st f := by
  by_cases hf : f = "detection"
  · subst hf
    rw [targetFile_detection, saveMemory_detection_file]
    by_cases hmt : mt = "detection"
    · rw [if_pos hmt]
      left
      exact ⟨rfl, by rw [hmt]⟩
    · rw [if_neg hmt]
      right
      rfl
  · have hL : targetFile (saveMemory st pb mt b now) f =
        (saveMemory st pb mt b now).trust_file := by
      rw [targetFile, if_neg hf]
    have hR : targetFile st f = st.trust_file := by
      rw [targetFile, if_neg hf]
    rw [hL, hR, saveMemory_trust_file]
    by_cases hmt : mt = "detection"
    · rw [if_pos hmt]
      right
      rfl
    · rw [if_neg hmt]
      left
      exact ⟨rfl, by rw [targetFile, if_neg hmt]⟩

theorem version_targetFile_saveMemory (st : ManagerState) (pb : Playbook)
    (mt : String) (b : Bool) (now : Nat) (f : String)
    (hver : pb.version = (targetFile st mt).version) :
    (targetFile (saveMemory st pb mt b now) f).version =
      (targetFile st f).version := by
  rcases targetFile_saveMemory_cases st pb mt b now f with ⟨hL, hEq⟩ | hL
  · rw [hL, hver, hEq]
  · rw [hL]

theorem runDelta_no_action_version (st : ManagerState) (d : DeltaUpdate)
    (now : Nat) (f : String) (hact : d.action = .no_action) :
    (targetFile (runDelta st d now) f).version = (targetFile st f).version := by
  have hres := applyDeltaUpdate_no_action st d now hact
  have hrun : runDelta st d now =
      saveMemory st
        { targetFile st (memoryTypeOf d) with
          total_cases_processed :=
            (targetFile st (memoryTypeOf d)).total_cases_processed + 1 }
        (memoryTypeOf d) false now := by
    rw [runDelta, hres]
  rw [hrun]
  exact version_targetFile_saveMemory st _ (memoryTypeOf d) false now f rfl

theorem runDelta_version_cases (st : ManagerState) (d : DeltaUpdate)
    (now : Nat) (f : String) :
    (targetFile (runDelta st d now) f).version = (targetFile st f).version ∨
      bumpVersion (targetFile st f).version =
        some (targetFile (runDelta st d now) f).version := by
  rcases hres : applyDeltaUpdate st d now with ⟨st', pb⟩ | ⟨e, st'⟩
  · have hrun : runDelta st d now = st' := by rw [runDelta, hres]
    by_cases hact : d.action = DeltaAction.no_action
    · exact Or.inl (runDelta_no_action_version st d now f hact)
    · obtain ⟨h1, h2, _⟩ := applyDeltaUpdate_mutating hact hres
      rw [hrun, h2]
      rcases targetFile_saveMemory_cases st pb (memoryTypeOf d) true now f with
        ⟨hL, hEq⟩ | hL
      · right
        rw [hL, hEq]
        exact h1
      · left
        rw [hL]
  · have hrun : runDelta st d now = st' := by rw [runDelta, hres]
    rw [hrun, applyDeltaUpdate_exn hres]
    left; rfl

theorem runDelta_versionLe (st : ManagerState) (d : DeltaUpdate) (now : Nat)
    (f : String) :
    versionLe (targetFile st f).version
      (targetFile (runDelta st d now) f).version := by
  rcases runDelta_version_cases st d now f with h | h
  · rw [h]
    exact versionLe_refl _
  · exact versionLe_of_bump h

theorem runDeltas_versionLe (ds : List (DeltaUpdate × Nat)) :
    ∀ st f, versionLe (targetFile st f).version
      (targetFile (runDeltas st ds) f).version := by
  induction ds with
  | nil => intro st f; exact versionLe_refl _
  | cons p rest ih =>
    intro st f
    rcases p with ⟨d, t⟩
    exact versionLe_trans (runDelta_versionLe st d t f)
      (ih (runDelta st d t) f)

/-- Claim C2: across any sequence of applied Update Requests each partition's
version string is non-decreasing (conjunct 1); a mutating action on a
partition at canonical version `vM.N` produces exactly `vM.(N+1)`, both in
the returned playbook and in the partition file (conjunct 2); `no_action`
changes no version (conjunct 3); and bumping is the only version-mutation
path — after any request each partition's version is either unchanged or
exactly the bump of the old one (conjunct 4). -/
theorem claim_C2 :
    (∀ st (ds : List (DeltaUpdate × Nat)),
      versionLe st.detection_file.version
        (runDeltas st ds).detection_file.version ∧
      versionLe st.trust_file.version
        (runDeltas st ds).trust_file.version) ∧
    (∀ st d now st' pb (M N : Nat), d.action ≠ DeltaAction.no_action →
      (targetFile st (memoryTypeOf d)).version = canonVersion M N →
      applyDeltaUpdate st d now = .ok st' pb →
      pb.version = canonVersion M (N + 1) ∧
      (targetFile st' (memoryTypeOf d)).version = canonVersion M (N + 1)) ∧
    (∀ st d now st' pb, d.action = DeltaAction.no_action →
      applyDeltaUpdate st d now = .ok st' pb →
      pb.version = (targetFile st (memoryTypeOf d)).version ∧
      st'.detection_file.version = st.detection_file.version ∧
      st'.trust_file.version = st.trust_file.version) ∧
    (∀ st d now,
      ((runDelta st d now).detection_file.version =
          st.detection_file.version ∨
        bumpVersion st.detection_file.version =
          some (runDelta st d now).detection_file.version) ∧
      ((runDelta st d now).trust_file.version = st.trust_file.version ∨
        bumpVersion st.trust_file.version =
          some (runDelta st d now).trust_file.version)) := by
  refine ⟨?_, ?_, ?_, ?_⟩
  · intro st ds
    exact ⟨runDeltas_versionLe ds st "detection",
      runDeltas_versionLe ds st "trust"⟩
  · intro st d now st' pb M N hact hcanon hres
    obtain ⟨h1, h2, _⟩ := applyDeltaUpdate_mutating hact hres
    rw [hcanon, bumpVersion_canonVersion] at h1
    have hver : pb.version = canonVersion M (N + 1) :=
      (Option.some.inj h1).symm
    refine ⟨hver, ?_⟩
    rw [h2, targetFile_saveMemory]
    exact hver
  · intro st d now st' pb hact hres
    rw [applyDeltaUpdate_no_action st d now hact] at hres
    injection hres with hst hpb
    have hrun : runDelta st d now = st' := by
      rw [runDelta, applyDeltaUpdate_no_action st d now hact, hst]
    refine ⟨by rw [← hpb], ?_, ?_⟩
    · have := runDelta_no_action_version st d now "detection" hact
      rw [hrun] at this
      exact this
    · have := runDelta_no_action_version st d now "trust" hact
      rw [hrun] at this
      exact this
  · intro st d now
    exact ⟨runDelta_version_cases st d now "detection",
      runDelta_version_cases st d now "trust"⟩

/- ### Claim C1 -/

theorem deprecateFirstRule_no_match (tid : Option String) (rules : List Rule)
    (h : existsTarget rules tid = false) :
    deprecateFirstRule tid rules = rules := by
  induction rules with
  | nil => rfl
  | cons r rest ih =>
    simp only [existsTarget, List.any_cons, Bool.or_eq_false_iff] at h
    rw [deprecateFirstRule, if_neg (by simp [h.1]), ih (by
      simp only [existsTarget]
      exact h.2)]

theorem updateFirstRule_no_match (tid : Option String)
    (fields : List (String × FieldVal)) (rules : List Rule)
    (h : existsTarget rules tid = false) :
    updateFirstRule tid fields rules = rules := by
  induction rules with
  | nil => rfl
  | cons r rest ih =>
    simp only [existsTarget, List.any_cons, Bool.or_eq_false_iff] at h
    rw [updateFirstRule, if_neg (by simp [h.1]), ih (by
      simp only [existsTarget]
      exact h.2)]

/-- Claim C1 is false on the code: a missing target rule is silent and
modifies no rule record, but the partition state is NOT left as it was —
the version is still bumped (and the counter incremented, and a backup
written).  Concretely, update_rule for the absent id "zzz" on a fresh store
moves the detection partition from "v1.0" to "v1.1". -/
theorem claim_C1_counterexample : ¬ claimC1Prop := by
  intro h
  obtain ⟨pb, hpb⟩ := h stEmpty dUpdMissEx 3 (Or.inl rfl) rfl
  have hactual : applyDeltaUpdate stEmpty dUpdMissEx 3 =
      .ok (runDelta stEmpty dUpdMissEx 3)
        (targetFile (runDelta stEmpty dUpdMissEx 3) "detection") := rfl
  rw [hactual] at hpb
  injection hpb with h1 _
  have hver : (runDelta stEmpty dUpdMissEx 3).detection_file.version
      = "v1.1" := rfl
  rw [h1] at hver
  exact absurd hver (by decide)

/-- Claim C1 amended: an update_rule or deprecate_rule request whose target
id matches no rule in the target partition raises no error and modifies no
rule record, but it is not a state no-op: the partition version is still
bumped by one minor step, total_cases_processed still increments, and a
backup snapshot of the prior file is still written to the history
directory. -/
theorem claim_C1_amended (st : ManagerState) (d : DeltaUpdate) (now : Nat)
    (ha : d.action = .update_rule ∨ d.action = .deprecate_rule)
    (hmiss : existsTarget (targetFile st (memoryTypeOf d)).rules
      d.target_rule_id = false)
    (hver : bumpVersion (targetFile st (memoryTypeOf d)).version ≠ none) :
    applyDeltaUpdate st d now =
      .ok (runDelta st d now)
        (targetFile (runDelta st d now) (memoryTypeOf d)) ∧
    (targetFile (runDelta st d now) (memoryTypeOf d)).rules =
      (targetFile st (memoryTypeOf d)).rules ∧
    bumpVersion (targetFile st (memoryTypeOf d)).version =
      some (targetFile (runDelta st d now) (memoryTypeOf d)).version ∧
    (targetFile (runDelta st d now) (memoryTypeOf d)).total_cases_processed
      = (targetFile st (memoryTypeOf d)).total_cases_processed + 1 ∧
    (runDelta st d now).history = st.history ++
      [⟨memoryTypeOf d,
        (targetFile (runDelta st d now) (memoryTypeOf d)).version, now,
        targetFile st (memoryTypeOf d)⟩] := by
  rcases hb : bumpVersion (targetFile st (memoryTypeOf d)).version with _ | w
  · exact absurd hb hver
  have hres : applyDeltaUpdate st d now =
      .ok (saveMemory st
            { targetFile st (memoryTypeOf d) with
              version := w
              total_cases_processed :=
                (targetFile st (memoryTypeOf d)).total_cases_processed + 1 }
            (memoryTypeOf d) true now)
          { targetFile st (memoryTypeOf d) with
            version := w
            total_cases_processed :=
              (targetFile st (memoryTypeOf d)).total_cases_processed + 1 } := by
    obtain ⟨action, tid, nr, uf, rsn, tm⟩ := d
    rcases ha with h | h
    · cases h
      simp only [applyDeltaUpdate]
      rw [if_neg (by rw [hmiss]; simp), bumpAndSave, hb]
    · cases h
      simp only [applyDeltaUpdate]
      rw [deprecateFirstRule_no_match tid _ hmiss]
      rw [show ({ targetFile st
          (memoryTypeOf ⟨.deprecate_rule, tid, nr, uf, rsn, tm⟩) with
          rules := (targetFile st
            (memoryTypeOf ⟨.deprecate_rule, tid, nr, uf, rsn, tm⟩)).rules }
          : Playbook) = targetFile st
            (memoryTypeOf ⟨.deprecate_rule, tid, nr, uf, rsn, tm⟩) from rfl]
      rw [bumpAndSave, hb]
  have hrun : runDelta st d now =
      saveMemory st
        { targetFile st (memoryTypeOf d) with
          version := w
          total_cases_processed :=
            (targetFile st (memoryTypeOf d)).total_cases_processed + 1 }
        (memoryTypeOf d) true now := by
    rw [runDelta, hres]
  have htf : targetFile (runDelta st d now) (memoryTypeOf d) =
      { targetFile st (memoryTypeOf d) with
        version := w
        total_cases_processed :=
          (targetFile st (memoryTypeOf d)).total_cases_processed + 1 } := by
    rw [hrun, targetFile_saveMemory]
  refine ⟨?_, ?_, ?_, ?_, ?_⟩
  · rw [htf, hrun, hres]
  · rw [htf]
  · rw [htf]
  · rw [htf]
  · rw [htf, hrun, saveMemory_history, if_pos rfl]

/-- Witness for the amended C1 on a concrete store. -/
theorem claim_C1_witness :
    applyDeltaUpdate stEmpty dUpdMissEx 3 =
      .ok (runDelta stEmpty dUpdMissEx 3)
        (targetFile (runDelta stEmpty dUpdMissEx 3) "detection") ∧
    (targetFile (runDelta stEmpty dUpdMissEx 3) "detection").rules = [] ∧
    bumpVersion "v1.0" =
      some (targetFile (runDelta stEmpty dUpdMissEx 3) "detection").version := by
  have h := claim_C1_amended stEmpty dUpdMissEx 3 (Or.inl rfl) rfl (by decide)
  exact ⟨h.1, h.2.1, h.2.2.1⟩

/- ### Claim C4 -/

/-- Claim C4 is false on the code: the backup snapshot is filed under the
NEW (post-bump) version, not the prior one — apply_delta_update bumps
`playbook.version` before calling `_save_memory`, and the backup file name
uses `playbook.version`.  Concretely, the add_rule below snapshots the
"v1.0" file under the name version "v1.1". -/
theorem claim_C4_counterexample : ¬ claimC4Prop := by
  intro h
  have hres : applyDeltaUpdate stEmpty dAddEx 7 =
      .ok (runDelta stEmpty dAddEx 7)
        (targetFile (runDelta stEmpty dAddEx 7) "detection") := rfl
  have hh := h stEmpty dAddEx 7 _ _ (by decide) hres
  have hactual : (runDelta stEmpty dAddEx 7).history.map
      (fun e => e.name_version) = ["v1.1"] := rfl
  rw [hh] at hactual
  exact absurd hactual (by decide)

/-- Claim C4 amended: on every mutating apply that returns normally, exactly
one snapshot is appended to the history directory; it holds the prior live
file (copied before the live file is overwritten with the new state), and
its name encodes the partition name and timestamp but the NEW (post-bump)
version rather than the prior one. -/
theorem claim_C4_amended {st : ManagerState} {d : DeltaUpdate} {now : Nat}
    {st' : ManagerState} {pb : Playbook} (ha : d.action ≠ .no_action)
    (h : applyDeltaUpdate st d now = .ok st' pb) :
    st'.history = st.history ++
      [⟨memoryTypeOf d, pb.version, now, targetFile st (memoryTypeOf d)⟩] ∧
    targetFile st' (memoryTypeOf d) = pb ∧
    bumpVersion (targetFile st (memoryTypeOf d)).version = some pb.version := by
  obtain ⟨h1, h2, _⟩ := applyDeltaUpdate_mutating ha h
  refine ⟨?_, ?_, h1⟩
  · rw [h2, saveMemory_history, if_pos rfl]
  · rw [h2, targetFile_saveMemory]

/-- Witness for the amended C4 on a concrete store. -/
theorem claim_C4_witness :
    applyDeltaUpdate stEmpty dAddEx 7 =
      .ok (runDelta stEmpty dAddEx 7)
        (targetFile (runDelta stEmpty dAddEx 7) "detection") ∧
    (runDelta stEmpty dAddEx 7).history = stEmpty.history ++
      [⟨"detection",
        (targetFile (runDelta stEmpty dAddEx 7) "detection").version, 7,
        targetFile stEmpty "detection"⟩] := by
  have hres : applyDeltaUpdate stEmpty dAddEx 7 =
      .ok (runDelta stEmpty dAddEx 7)
        (targetFile (runDelta stEmpty dAddEx 7) "detection") := rfl
  exact ⟨hres, (claim_C4_amended (by decide) hres).1⟩

/- ### Claim C5 -/

theorem runDelta_no_action_facts (st : ManagerState) (d : DeltaUpdate)
    (now : Nat) (h : d.action = .no_action) :
    applyDeltaUpdate st d now =
      .ok (runDelta st d now)
        (targetFile (runDelta st d now) (memoryTypeOf d)) ∧
    (runDelta st d now).history = st.history ∧
    targetFile (runDelta st d now) (memoryTypeOf d) =
      { targetFile st (memoryTypeOf d) with
        total_cases_processed :=
          (targetFile st (memoryTypeOf d)).total_cases_processed + 1 } := by
  have hrd : runDelta st d now = saveMemory st
      { targetFile st (memoryTypeOf d) with
        total_cases_processed :=
          (targetFile st (memoryTypeOf d)).total_cases_processed + 1 }
      (memoryTypeOf d) false now := by
    rw [runDelta, applyDeltaUpdate_no_action st d now h]
  have htf : targetFile (runDelta st d now) (memoryTypeOf d) =
      { targetFile st (memoryTypeOf d) with
        total_cases_processed :=
          (targetFile st (memoryTypeOf d)).total_cases_processed + 1 } := by
    rw [hrd, targetFile_saveMemory]
  refine ⟨?_, ?_, htf⟩
  · rw [htf, hrd, applyDeltaUpdate_no_action st d now h]
  · rw [hrd, saveMemory_history]
    rfl

/-- Claim C5: a no_action request mutates no rule, leaves the version alone,
increments total_cases_processed by exactly 1, persists the partition, and
writes nothing to the history directory; two consecutive no_action requests
against the same partition raise the counter by 2 with the version and the
history still unchanged. -/
theorem claim_C5 (st : ManagerState) (d d2 : DeltaUpdate) (t t2 : Nat)
    (h : d.action = .no_action) (h2 : d2.action = .no_action)
    (hmem : memoryTypeOf d2 = memoryTypeOf d) :
    applyDeltaUpdate st d t =
      .ok (runDelta st d t) (targetFile (runDelta st d t) (memoryTypeOf d)) ∧
    (runDelta st d t).history = st.history ∧
    (targetFile (runDelta st d t) (memoryTypeOf d)).version =
      (targetFile st (memoryTypeOf d)).version ∧
    (targetFile (runDelta st d t) (memoryTypeOf d)).rules =
      (targetFile st (memoryTypeOf d)).rules ∧
    (targetFile (runDelta st d t) (memoryTypeOf d)).total_cases_processed =
      (targetFile st (memoryTypeOf d)).total_cases_processed + 1 ∧
    (runDeltas st [(d, t), (d2, t2)]).history = st.history ∧
    (targetFile (runDeltas st [(d, t), (d2, t2)])
        (memoryTypeOf d)).version =
      (targetFile st (memoryTypeOf d)).version ∧
    (targetFile (runDeltas st [(d, t), (d2, t2)])
        (memoryTypeOf d)).total_cases_processed =
      (targetFile st (memoryTypeOf d)).total_cases_processed + 2 := by
  obtain ⟨ha1, hh1, ht1⟩ := runDelta_no_action_facts st d t h
  obtain ⟨_, hh2, ht2⟩ := runDelta_no_action_facts (runDelta st d t) d2 t2 h2
  refine ⟨ha1, hh1, by rw [ht1], by rw [ht1], by rw [ht1], ?_, ?_, ?_⟩
  · show (runDelta (runDelta st d t) d2 t2).history = st.history
    rw [hh2, hh1]
  · show (targetFile (runDelta (runDelta st d t) d2 t2)
      (memoryTypeOf d)).version = _
    rw [← hmem, ht2, hmem, ht1]
  · show (targetFile (runDelta (runDelta st d t) d2 t2)
      (memoryTypeOf d)).total_cases_processed = _
    rw [← hmem, ht2, hmem, ht1]
    show (targetFile st (memoryTypeOf d)).total_cases_processed + 1 + 1 = _
    omega

/-- Witness for C5 on a concrete store. -/
theorem claim_C5_witness :
    applyDeltaUpdate stEmpty dNoneEx 1 =
      .ok (runDelta stEmpty dNoneEx 1)
        (targetFile (runDelta stEmpty dNoneEx 1) "detection") ∧
    (runDeltas stEmpty [(dNoneEx, 1), (dNoneEx, 2)]).history = [] ∧
    (targetFile (runDeltas stEmpty [(dNoneEx, 1), (dNoneEx, 2)])
      "detection").total_cases_processed = 2 := by
  have h := claim_C5 stEmpty dNoneEx dNoneEx 1 2 rfl rfl rfl
  exact ⟨h.1, h.2.2.2.2.2.1, h.2.2.2.2.2.2.2⟩

/- ### Claim C10 -/

/-- Claim C10: an add_rule or refine_rule request with new_rule = None
raises AttributeError (attribute access on None in the success print, after
the in-memory append but before the version bump and the save), leaving the
persisted partition files and the history exactly as they were; the
"requires new_rule" precondition is never checked explicitly. -/
theorem claim_C10 (st : ManagerState) (d : DeltaUpdate) (now : Nat)
    (ha : d.action = .add_rule ∨ d.action = .refine_rule)
    (hnr : d.new_rule = none) :
    applyDeltaUpdate st d now = .exn .attributeError st := by
  obtain ⟨action, tid, nr, uf, rsn, tm⟩ := d
  simp only at hnr
  subst hnr
  rcases ha with h | h <;> cases h <;> rfl

/-- Witness for C10 on a concrete store. -/
theorem claim_C10_witness :
    applyDeltaUpdate stEmpty dAddNoRuleEx 3 = .exn .attributeError stEmpty :=
  claim_C10 stEmpty dAddNoRuleEx 3 (Or.inl rfl) rfl

/- ### Claim C6 -/

theorem deprecateFirstRule_decomp (tid : Option String) (a b : List Rule)
    (r : Rule) (hr : ruleMatches r tid = true)
    (ha : ∀ x ∈ a, ruleMatches x tid = false) :
    deprecateFirstRule tid (a ++ r :: b) =
      a ++ { r with active := false } :: b := by
  induction a with
  | nil =>
    simp only [List.nil_append, deprecateFirstRule]
    rw [if_pos hr]
  | cons x xs ih =>
    simp only [List.cons_append, deprecateFirstRule, List.append_eq]
    rw [if_neg (by rw [ha x (List.mem_cons_self x xs)]; simp),
      ih (fun y hy => ha y (List.mem_cons_of_mem x hy))]

theorem find_middle {α : Type} (p : α → Bool) (a b : List α) (r : α)
    (hr : p r = true) (ha : ∀ x ∈ a, p x = false) :
    (a ++ r :: b).find? p = some r := by
  induction a with
  | nil =>
    simp only [List.nil_append]
    rw [List.find?_cons, hr]
  | cons x xs ih =>
    simp only [List.cons_append]
    rw [List.find?_cons, ha x (List.mem_cons_self x xs)]
    exact ih (fun y hy => ha y (List.mem_cons_of_mem x hy))

theorem not_mem_active_filter (r : Rule) (l : List Rule)
    (h : r.active = false) : r ∉ l.filter (fun x => x.active) := by
  intro hm
  have h2 := (List.mem_filter.mp hm).2
  rw [h] at h2
  exact absurd h2 (by simp)

theorem applyDeltaUpdate_deprecate (st : ManagerState) (d : DeltaUpdate)
    (now : Nat) (w : String) (hact : d.action = .deprecate_rule)
    (hb : bumpVersion (targetFile st (memoryTypeOf d)).version = some w) :
    applyDeltaUpdate st d now =
      .ok (saveMemory st
            { targetFile st (memoryTypeOf d) with
              rules := deprecateFirstRule d.target_rule_id
                (targetFile st (memoryTypeOf d)).rules
              version := w
              total_cases_processed :=
                (targetFile st (memoryTypeOf d)).total_cases_processed + 1 }
            (memoryTypeOf d) true now)
          { targetFile st (memoryTypeOf d) with
            rules := deprecateFirstRule d.target_rule_id
              (targetFile st (memoryTypeOf d)).rules
            version := w
            total_cases_processed :=
              (targetFile st (memoryTypeOf d)).total_cases_processed + 1 } := by
  obtain ⟨action, tid, nr, uf, rsn, tm⟩ := d
  cases hact
  show bumpAndSave st
    { targetFile st (memoryTypeOf ⟨.deprecate_rule, tid, nr, uf, rsn, tm⟩) with
      rules := deprecateFirstRule tid
        (targetFile st
          (memoryTypeOf ⟨.deprecate_rule, tid, nr, uf, rsn, tm⟩)).rules }
    (memoryTypeOf ⟨.deprecate_rule, tid, nr, uf, rsn, tm⟩) now = _
  rw [bumpAndSave]
  rw [show bumpVersion
    ({ targetFile st (memoryTypeOf ⟨.deprecate_rule, tid, nr, uf, rsn, tm⟩) with
       rules := deprecateFirstRule tid
         (targetFile st
           (memoryTypeOf ⟨.deprecate_rule, tid, nr, uf, rsn, tm⟩)).rules }
      : Playbook).version = some w from hb]

/-- Claim C6: deprecate_rule on a rule present in the partition (ids unique
up to that rule) returns normally and soft-deletes it: the record is kept in
place in the stored partition with `active = false`, is still found by an
id lookup over the raw partition (find? over the stored rules, and the
search_rule_by_id tool), but is excluded from the active-rules read and from
the brief summary. -/
theorem claim_C6 (st : ManagerState) (d : DeltaUpdate) (now : Nat)
    (r : Rule) (a b : List Rule)
    (hact : d.action = .deprecate_rule)
    (htid : d.target_rule_id = some r.rule_id)
    (hsplit : (targetFile st (memoryTypeOf d)).rules = a ++ r :: b)
    (hna : ∀ x ∈ a, x.rule_id ≠ r.rule_id)
    (hver : bumpVersion (targetFile st (memoryTypeOf d)).version ≠ none) :
    applyDeltaUpdate st d now =
      .ok (runDelta st d now)
        (targetFile (runDelta st d now) (memoryTypeOf d)) ∧
    (targetFile (runDelta st d now) (memoryTypeOf d)).rules =
      a ++ { r with active := false } :: b ∧
    (targetFile (runDelta st d now) (memoryTypeOf d)).rules.find?
      (fun x => x.rule_id = r.rule_id) = some { r with active := false } ∧
    (searchRuleById (runDelta st d now) r.rule_id).isSome = true ∧
    { r with active := false } ∉
      (targetFile (runDelta st d now) (memoryTypeOf d)).get_active_rules ∧
    { r with active := false } ∉ briefSummaryRules (runDelta st d now) := by
  rcases hb : bumpVersion (targetFile st (memoryTypeOf d)).version with _ | w
  · exact absurd hb hver
  have hdep : deprecateFirstRule d.target_rule_id
      (targetFile st (memoryTypeOf d)).rules =
      a ++ { r with active := false } :: b := by
    rw [htid, hsplit]
    exact deprecateFirstRule_decomp (some r.rule_id) a b r
      (by simp [ruleMatches])
      (fun x hx => by
        simp only [ruleMatches, beq_eq_false_iff_ne, ne_eq, Option.some_inj]
        exact hna x hx)
  have hres := applyDeltaUpdate_deprecate st d now w hact hb
  rw [hdep] at hres
  have hrun : runDelta st d now = saveMemory st
      { targetFile st (memoryTypeOf d) with
        rules := a ++ { r with active := false } :: b
        version := w
        total_cases_processed :=
          (targetFile st (memoryTypeOf d)).total_cases_processed + 1 }
      (memoryTypeOf d) true now := by
    rw [runDelta, hres]
  have htf : targetFile (runDelta st d now) (memoryTypeOf d) =
      { targetFile st (memoryTypeOf d) with
        rules := a ++ { r with active := false } :: b
        version := w
        total_cases_processed :=
          (targetFile st (memoryTypeOf d)).total_cases_processed + 1 } := by
    rw [hrun, targetFile_saveMemory]
  have hfind : (targetFile (runDelta st d now) (memoryTypeOf d)).rules.find?
      (fun x => x.rule_id = r.rule_id) = some { r with active := false } := by
    rw [htf]
    exact find_middle _ a b _ (by simp)
      (fun x hx => by
        simp only [decide_eq_false_iff_not]
        exact hna x hx)
  refine ⟨?_, ?_, hfind, ?_, ?_, ?_⟩
  · rw [htf, hrun, hres]
  · rw [htf]
  · rcases hfd : (runDelta st d now).detection_file.rules.find?
        (fun x => x.rule_id = r.rule_id) with _ | q
    · by_cases hmt : memoryTypeOf d = "detection"
      · rw [hmt, targetFile_detection, hfd] at hfind
        exact absurd hfind (by simp)
      · have hR : targetFile (runDelta st d now) (memoryTypeOf d) =
            (runDelta st d now).trust_file := by
          rw [targetFile, if_neg hmt]
        rw [hR] at hfind
        rw [searchRuleById, hfd, hfind]
        rfl
    · rw [searchRuleById, hfd]
      rfl
  · exact not_mem_active_filter _ _ rfl
  · intro hm
    rcases List.mem_append.mp hm with hx | hx
    · exact not_mem_active_filter _ _ rfl hx
    · exact not_mem_active_filter _ _ rfl hx

/-- Witness for C6 on a concrete store. -/
theorem claim_C6_witness :
    applyDeltaUpdate stOneRule dDepEx 4 =
      .ok (runDelta stOneRule dDepEx 4)
        (targetFile (runDelta stOneRule dDepEx 4) "detection") ∧
    (targetFile (runDelta stOneRule dDepEx 4) "detection").rules =
      [] ++ { rEx with active := false } :: [] ∧
    (searchRuleById (runDelta stOneRule dDepEx 4) rEx.rule_id).isSome
      = true ∧
    { rEx with active := false } ∉
      (targetFile (runDelta stOneRule dDepEx 4) "detection").get_active_rules := by
  have h := claim_C6 stOneRule dDepEx 4 rEx [] [] rfl rfl rfl
    (fun x hx => absurd hx (List.not_mem_nil x)) (by decide)
  exact ⟨h.1, h.2.1, h.2.2.2.1, h.2.2.2.2.1⟩

/- ### Claim C9 -/

theorem insertActiveRules_active (m : String → Option Rule) (mt : String)
    (rules : List Rule)
    (hm : ∀ k q, m k = some q → q.active = true) :
    ∀ k q, insertActiveRules m mt rules k = some q → q.active = true := by
  induction rules generalizing m with
  | nil => exact hm
  | cons x xs ih =>
    by_cases hx : x.active = true
    · rw [insertActiveRules, if_pos hx]
      apply ih
      intro k q hk
      by_cases hkx : k = x.rule_id
      · rw [if_pos hkx] at hk
        rcases Option.some.inj hk with rfl
        exact hx
      · rw [if_neg hkx] at hk
        exact hm k q hk
    · rw [insertActiveRules, if_neg hx]
      exact ih m hm

theorem insertActiveRules_not_mem (m : String → Option Rule) (mt : String)
    (rules : List Rule) (rid : String)
    (h : ∀ x ∈ rules, x.active = true → x.rule_id ≠ rid) :
    insertActiveRules m mt rules rid = m rid := by
  induction rules generalizing m with
  | nil => rfl
  | cons x xs ih =>
    by_cases hx : x.active = true
    · rw [insertActiveRules, if_pos hx,
        ih _ (fun y hy => h y (List.mem_cons_of_mem _ hy))]
      rw [if_neg (fun hEq => (h x (List.mem_cons_self x xs) hx) hEq.symm)]
    · rw [insertActiveRules, if_neg hx]
      exact ih m (fun y hy => h y (List.mem_cons_of_mem _ hy))

theorem insertActiveRules_hit (mt : String) (rid : String) (rt : Rule)
    (hact : rt.active = true) (hid : rt.rule_id = rid) :
    ∀ (a b : List Rule) (m : String → Option Rule),
    (∀ x ∈ b, x.active = true → x.rule_id ≠ rid) →
    insertActiveRules m mt (a ++ rt :: b) rid = some (tagRule rt mt) := by
  intro a
  induction a with
  | nil =>
    intro b m hbne
    rw [List.nil_append, insertActiveRules, if_pos hact,
      insertActiveRules_not_mem _ _ _ _ hbne]
    rw [if_pos hid.symm]
  | cons x xs ih =>
    intro b m hbne
    rw [List.cons_append, insertActiveRules]
    by_cases hx : x.active = true
    · rw [if_pos hx]
      exact ih b _ hbne
    · rw [if_neg hx]
      exact ih b m hbne

/-- Claim C9: in get_rules_by_ids only rules with `active = true` enter the
merged id dictionary, and for an id that is active in the trust partition
(unique among its active rules) the dictionary yields the trust record —
the trust pass runs second and overwrites any detection entry of the same
id; the selected-rules extraction therefore returns the trust record. -/
theorem claim_C9 (st : ManagerState) (rid : String) (rt : Rule)
    (a b : List Rule)
    (hsplit : st.trust_file.rules = a ++ rt :: b)
    (hact : rt.active = true) (hid : rt.rule_id = rid)
    (hbne : ∀ x ∈ b, x.active = true → x.rule_id ≠ rid) :
    allActiveRules st rid = some (tagRule rt "trust") ∧
    (∀ k q, allActiveRules st k = some q → q.active = true) ∧
    getSelectedRules st [rid] = [tagRule rt "trust"] := by
  have h1 : allActiveRules st rid = some (tagRule rt "trust") := by
    rw [allActiveRules, hsplit]
    exact insertActiveRules_hit "trust" rid rt hact hid a b _ hbne
  refine ⟨h1, ?_, ?_⟩
  · intro k q hk
    refine insertActiveRules_active _ "trust" st.trust_file.rules ?_ k q hk
    refine insertActiveRules_active _ "detection" st.detection_file.rules ?_
    intro k' q' h'
    exact absurd h' (by simp)
  · rw [getSelectedRules]
    simp [h1]

/-- Witness for C9 on a store holding the same rule id active in both
partitions. -/
theorem claim_C9_witness :
    allActiveRules stBoth "shr-00001" = some (tagRule rEx2 "trust") ∧
    getSelectedRules stBoth ["shr-00001"] = [tagRule rEx2 "trust"] := by
  have h := claim_C9 stBoth "shr-00001" rEx2 [] [] rfl rfl rfl
    (fun x hx => absurd hx (List.not_mem_nil x))
  exact ⟨h.1, h.2.2⟩

/- ### Claim C3 -/

/-- Claim C3 is false on the code: confidence is indeed clamped and
defaulted without error, but evidence_count is NOT guaranteed
non-negative — fix_evidence_count passes a negative integer through
unchanged (`int(-5)` is `-5`, and the field declares no `ge=0` bound). -/
theorem claim_C3_counterexample : ¬ claimC3Prop := by
  intro h
  have h2 := h.2.2 (.jInt (-5)) (-5) rfl
  exact absurd h2 (by decide)

/-- Claim C3 amended: after validation, confidence always lies in `[0, 1]`
(out-of-range numeric values clamped to the nearest bound, unconvertible
values defaulted to `0.5`) and the declared `ge/le` field bounds never
raise; evidence_count is always coerced to some integer without error for
every non-null input, but that integer may be negative. -/
theorem claim_C3_amended :
    (∀ v, 0 ≤ validate_confidence v ∧ validate_confidence v ≤ 1) ∧
    (∀ v c, pyFloatOf v = some c → c < 0 → validate_confidence v = 0) ∧
    (∀ v c, pyFloatOf v = some c → 1 < c → validate_confidence v = 1) ∧
    (∀ v, pyFloatOf v = none → validate_confidence v = 1 / 2) ∧
    (∀ v, validateConfidenceField v = .ok (validate_confidence v)) ∧
    (∀ v, v ≠ JVal.jNull → ∃ n, fix_evidence_count v = .ok n) := by
  have hb : ∀ v, 0 ≤ validate_confidence v ∧ validate_confidence v ≤ 1 := by
    intro v
    rcases hf : pyFloatOf v with _ | c
    · simp only [validate_confidence, hf]
      norm_num
    · simp only [validate_confidence, hf]
      split_ifs with h1 h2
      · norm_num
      · norm_num
      · exact ⟨le_of_not_lt h1, le_of_not_lt h2⟩
  refine ⟨hb, ?_, ?_, ?_, ?_, ?_⟩
  · intro v c hf hc
    simp only [validate_confidence, hf]
    rw [if_pos hc]
  · intro v c hf hc
    simp only [validate_confidence, hf]
    rw [if_neg (by linarith), if_pos hc]
  · intro v hf
    simp only [validate_confidence, hf]
  · intro v
    rw [validateConfidenceField, if_pos (hb v)]
  · intro v hv
    cases v with
    | jStr s =>
      rw [fix_evidence_count]
      by_cases hh : evidenceHeuristic s = true
      · rw [if_pos hh]; exact ⟨1, rfl⟩
      · rw [if_neg hh]
        rcases hp : pyInt s.toList with _ | n
        · exact ⟨1, rfl⟩
        · exact ⟨n, rfl⟩
    | jInt n => exact ⟨n, rfl⟩
    | jNum q => exact ⟨pyTrunc q, rfl⟩
    | jBool bb => exact ⟨if bb then 1 else 0, rfl⟩
    | jNull => exact absurd rfl hv

/-- Witness for the amended C3 at concrete inputs. -/
theorem claim_C3_witness :
    (0 ≤ validate_confidence (.jStr "abc") ∧
      validate_confidence (.jStr "abc") ≤ 1) ∧
    validate_confidence (.jNum (-1)) = 0 ∧
    validate_confidence (.jNum 2) = 1 ∧
    validate_confidence JVal.jNull = 1 / 2 ∧
    validateConfidenceField (.jInt 1) = .ok (validate_confidence (.jInt 1)) ∧
    fix_evidence_count (.jStr "7") = .ok 7 := by
  refine ⟨claim_C3_amended.1 (.jStr "abc"),
    claim_C3_amended.2.1 (.jNum (-1)) (-1) rfl neg_one_lt_zero,
    claim_C3_amended.2.2.1 (.jNum 2) 2 rfl one_lt_two,
    claim_C3_amended.2.2.2.1 JVal.jNull rfl,
    claim_C3_amended.2.2.2.2.1 (.jInt 1), rfl⟩

/- ### Claim C7 -/

/-- Claim C7: the curator's script-based classification routes every
mutating action to "trust" exactly when the case verdict is the literal
"True" and to "detection" for every other verdict value, while no_action is
always assigned "detection" regardless of the verdict. -/
theorem claim_C7 (a : DeltaAction) (v : String) :
    (a ≠ DeltaAction.no_action →
      classifyTargetMemory a v =
        (if v = "True" then "trust" else "detection")) ∧
    classifyTargetMemory DeltaAction.no_action v = "detection" := by
  constructor
  · intro ha
    cases a
    · rfl
    · rfl
    · rfl
    · rfl
    · exact absurd rfl ha
  · rfl

/-- Witness for C7 at concrete actions and verdicts. -/
theorem claim_C7_witness :
    classifyTargetMemory DeltaAction.add_rule "True" = "trust" ∧
    classifyTargetMemory DeltaAction.update_rule "False" = "detection" ∧
    classifyTargetMemory DeltaAction.deprecate_rule "Unverifiable"
      = "detection" ∧
    classifyTargetMemory DeltaAction.no_action "True" = "detection" := by
  refine ⟨?_, ?_, ?_, (claim_C7 DeltaAction.no_action "True").2⟩
  · exact (claim_C7 DeltaAction.add_rule "True").1 (by decide)
  · exact (claim_C7 DeltaAction.update_rule "False").1 (by decide)
  · exact (claim_C7 DeltaAction.deprecate_rule "Unverifiable").1 (by decide)

/- ### Claim C8 -/

theorem fixEvidenceField_idem (x : Option JVal) :
    fixEvidenceField (fixEvidenceField x).1 = ((fixEvidenceField x).1, 0, 0) := by
  rcases x with _ | v
  · rfl
  rcases v with n | q | s | bb | _
  · rfl
  · rfl
  · rcases hp : pyInt s.toList with _ | n <;>
      simp only [String.toList] at hp <;> simp [fixEvidenceField, hp]
  · rfl
  · rfl

theorem fixEvidenceField_counts (x : Option JVal) :
    (fixEvidenceField x).2.1 = (fixEvidenceField x).2.2 := by
  rcases x with _ | v
  · rfl
  rcases v with n | q | s | bb | _
  · rfl
  · rfl
  · rcases hp : pyInt s.toList with _ | n <;>
      simp only [String.toList] at hp <;> simp [fixEvidenceField, hp]
  · rfl
  · rfl

theorem fixTypeField_idem (x : Option JVal) :
    fixTypeField (fixTypeField x).1 = ((fixTypeField x).1, 0, 0) := by
  rcases x with _ | v
  · rfl
  by_cases hv : jvalIsValidType v = true
  · have h1 : fixTypeField (some v) = (some v, 0, 0) := by
      simp only [fixTypeField]
      rw [if_pos hv]
    rw [h1]
    exact h1
  · have h1 : fixTypeField (some v) = (some (.jStr "strategy"), 1, 1) := by
      simp only [fixTypeField]
      rw [if_neg hv]
    rw [h1]
    rfl

theorem fixTypeField_counts (x : Option JVal) :
    (fixTypeField x).2.1 = (fixTypeField x).2.2 := by
  rcases x with _ | v
  · rfl
  by_cases hv : jvalIsValidType v = true <;> simp [fixTypeField, hv]

theorem fixConfidenceField_inrange (v : JVal) (c : ℚ)
    (hf : pyFloatOf v = some c) (h1 : ¬c < 0) (h2 : ¬1 < c) :
    fixConfidenceField (some v) = (some v, 0, 0) := by
  simp only [fixConfidenceField, hf]
  rw [if_neg h1, if_neg h2]

theorem fixConfidenceField_idem (x : Option JVal) :
    fixConfidenceField (fixConfidenceField x).1 =
      ((fixConfidenceField x).1, 0, 0) := by
  rcases x with _ | v
  · rfl
  rcases hf : pyFloatOf v with _ | c
  · have ha : fixConfidenceField (some v) = (some (.jNum (1 / 2)), 1, 1) := by
      simp only [fixConfidenceField, hf]
    rw [ha]
    exact fixConfidenceField_inrange (.jNum (1 / 2)) (1 / 2) rfl
      (by norm_num) (by norm_num)
  · by_cases h1 : c < 0
    · have ha : fixConfidenceField (some v) = (some (.jNum 0), 1, 1) := by
        simp only [fixConfidenceField, hf]
        rw [if_pos h1]
      rw [ha]
      exact fixConfidenceField_inrange (.jNum 0) 0 rfl (by norm_num)
        (by norm_num)
    · by_cases h2 : 1 < c
      · have ha : fixConfidenceField (some v) = (some (.jNum 1), 1, 1) := by
          simp only [fixConfidenceField, hf]
          rw [if_neg h1, if_pos h2]
        rw [ha]
        exact fixConfidenceField_inrange (.jNum 1) 1 rfl (by norm_num)
          (by norm_num)
      · have ha : fixConfidenceField (some v) = (some v, 0, 0) :=
          fixConfidenceField_inrange v c hf h1 h2
        rw [ha]
        exact ha

theorem fixConfidenceField_counts (x : Option JVal) :
    (fixConfidenceField x).2.1 = (fixConfidenceField x).2.2 := by
  rcases x with _ | v
  · rfl
  rcases hf : pyFloatOf v with _ | c
  · simp [fixConfidenceField, hf]
  · simp only [fixConfidenceField, hf]
    split_ifs <;> rfl

theorem fixMemoryField_idem (x : Option JVal) :
    fixMemoryField (fixMemoryField x).1 = ((fixMemoryField x).1, 0, 0) := by
  rcases x with _ | v
  · rfl
  by_cases hv : (jTruthy v && !jvalIsValidMemory v) = true
  · have h1 : fixMemoryField (some v) = (some (.jStr "detection"), 1, 1) := by
      simp only [fixMemoryField]
      rw [if_pos hv]
    rw [h1]
    rfl
  · have h1 : fixMemoryField (some v) = (some v, 0, 0) := by
      simp only [fixMemoryField]
      rw [if_neg hv]
    rw [h1]
    exact h1

theorem fixMemoryField_counts (x : Option JVal) :
    (fixMemoryField x).2.1 = (fixMemoryField x).2.2 := by
  rcases x with _ | v
  · rfl
  by_cases hv : (jTruthy v && !jvalIsValidMemory v) = true
  · simp only [fixMemoryField]
    rw [if_pos hv]
  · simp only [fixMemoryField]
    rw [if_neg hv]

theorem fixRuleObj_idem (r : RuleObj) :
    fixRuleObj (fixRuleObj r).1 = ((fixRuleObj r).1, 0, 0) := by
  have he := fixEvidenceField_idem r.evidence_count
  have ht := fixTypeField_idem r.type
  have hc := fixConfidenceField_idem r.confidence
  have hm := fixMemoryField_idem r.memory_type
  simp [fixRuleObj, he, ht, hc, hm]

theorem fixRuleObj_counts (r : RuleObj) :
    (fixRuleObj r).2.1 = (fixRuleObj r).2.2 := by
  simp [fixRuleObj, fixEvidenceField_counts, fixTypeField_counts,
    fixConfidenceField_counts, fixMemoryField_counts]

theorem fixRulesList_idem (rs : List RuleObj) :
    fixRulesList (fixRulesList rs).1 = ((fixRulesList rs).1, 0, 0) := by
  induction rs with
  | nil => rfl
  | cons r rest ih =>
    simp [fixRulesList, fixRuleObj_idem r, ih]

theorem fixRulesList_counts (rs : List RuleObj) :
    (fixRulesList rs).2.1 = (fixRulesList rs).2.2 := by
  induction rs with
  | nil => rfl
  | cons r rest ih =>
    simp [fixRulesList, fixRuleObj_counts r, ih]

/-- Claim C8: validate_and_fix_file is idempotent — running it again on the
file content produced by a first run (whether or not that run applied
fixes) finds zero issues, applies zero fixes, and leaves the file content
unchanged. -/
theorem claim_C8 (f : FileObj) :
    validate_and_fix_file (validate_and_fix_file f).1 =
      ((validate_and_fix_file f).1, ⟨0, 0⟩) := by
  rcases f with ⟨rs⟩
  rcases rs with _ | rs
  · rfl
  · by_cases hfx : (fixRulesList rs).2.2 = 0
    · have hi : (fixRulesList rs).2.1 = 0 := by
        rw [fixRulesList_counts rs, hfx]
      simp [validate_and_fix_file, hfx, hi]
    · have h2 := fixRulesList_idem rs
      simp [validate_and_fix_file, hfx, h2]

/-- Witness for C2 on a concrete store: one add_rule then one no_action. -/
theorem claim_C2_witness :
    versionLe stEmpty.detection_file.version
      (runDeltas stEmpty [(dAddEx, 1), (dNoneEx, 2)]).detection_file.version ∧
    (targetFile (runDelta stEmpty dAddEx 7) "detection").version =
      canonVersion 1 1 := by
  constructor
  · exact (claim_C2.1 stEmpty [(dAddEx, 1), (dNoneEx, 2)]).1
  · exact (claim_C2.2.1 stEmpty dAddEx 7 (runDelta stEmpty dAddEx 7)
      (targetFile (runDelta stEmpty dAddEx 7) "detection") 1 0
      (by decide) rfl rfl).2
